import Mathlib

/-!
# Verification of the Kuba board-game engine (`KubaGame.py`)

Shallow embedding of the `KubaGame` / `KubaPlayer` classes.  The board is a
total function `Fin 7 → Fin 7 → Char` (cells hold `'W'`, `'B'`, `'R'` or the
blank `'X'`, exactly as the Python source stores one-character strings).  The
four directional push methods `move_left`, `move_right`, `move_forward`,
`move_backward` are embedded as pure functions returning `Option` (the Python
methods return `False`, or `True` while mutating the scratch board, the
captured-marble cell and the no-go move; here a successful push returns the
new board, the captured cell and the new no-go token).  `make_move` threads
the whole game state explicitly.
-/

namespace Kuba

/-- Coerce a natural number into `Fin 7`; every use in the development is on
an index that is already `< 7` (the Python code indexes the 7×7 board only
with validated coordinates), so the `% 7` never wraps. -/
def fin7 (n : Nat) : Fin 7 := ⟨n % 7, Nat.mod_lt n (by decide)⟩

/-- A board is a total assignment of cell contents to the 7×7 grid. -/
abbrev Board := Fin 7 → Fin 7 → Char

/-- Build a board from a row-major list-of-lists literal, as the Python
constructor stores `self._board`.  Out-of-range lookups (never used) give the
blank `'X'`. -/
def toBoard (l : List (List Char)) : Board := fun r c => (l.getD r.val []).getD c.val 'X'

/-- The no-go move `self._no_go_move`: a `(row, column, direction)` triple. -/
abbrev NoGo := Nat × Nat × String

/-- Result of a successful push: the updated (scratch) board, the captured
marble (if any) and the new no-go token. -/
abbrev PushOut := Board × Option Char × Option NoGo

/-- Componentwise (kernel-computable) equality test for push results. -/
instance : DecidableEq PushOut := fun a b =>
  decidable_of_iff (a.1 = b.1 ∧ a.2.1 = b.2.1 ∧ a.2.2 = b.2.2)
    (by obtain ⟨a1, a2, a3⟩ := a; obtain ⟨b1, b2, b3⟩ := b; simp [Prod.ext_iff])

/-- Kernel-computable equality test for optional push results. -/
instance : DecidableEq (Option PushOut) := fun a b =>
  match a, b with
  | none, none => isTrue rfl
  | some _, none => isFalse (fun h => Option.noConfusion h)
  | none, some _ => isFalse (fun h => Option.noConfusion h)
  | some x, some y =>
    match inferInstanceAs (Decidable (x = y)) with
    | isTrue h => isTrue (congrArg some h)
    | isFalse h => isFalse (fun hh => h (Option.some.inj hh))

/-- `KubaPlayer`: name, color, number of captured red marbles, number of
captured opponent marbles. -/
structure KubaPlayer where
  name : String
  color : Char
  red : Nat
  opponent_marbles : Nat
deriving DecidableEq

/-- The persistent state of `KubaGame`: the two players, winner, current
turn, the board, the three on-board marble tallies and the no-go move.
(The scratch fields `_temp_board` and `_captured_marble` are overwritten at
the start of every push before being read, so they carry no observable state
between calls and are returned functionally by the push functions instead.) -/
structure KubaGame where
  players : KubaPlayer × KubaPlayer
  winner : Option String
  turn : Option String
  board : Board
  red : Int
  white : Int
  black : Int
  no_go_move : Option NoGo

/-- State equality is decidable (and kernel-computable) componentwise. -/
instance : DecidableEq KubaGame := fun a b =>
  decidable_of_iff
    (a.players = b.players ∧ a.winner = b.winner ∧ a.turn = b.turn ∧ a.board = b.board ∧
      a.red = b.red ∧ a.white = b.white ∧ a.black = b.black ∧ a.no_go_move = b.no_go_move)
    (by cases a; cases b; simp [KubaGame.mk.injEq, and_assoc])

/-- The scan `for num in range(column,-1,-1): if blank: min=num; break` of
`move_left` (and, on a column, of `move_forward`): the largest index `j ≤ k`
holding a blank, defaulting to `0`.  Because a blank found at index `0` and
no blank at all both yield `min = 0`, index `0` need not be inspected. -/
def scan_down (f : Fin 7 → Char) : Nat → Nat
  | 0 => 0
  | k + 1 =>
    if h : k + 1 < 7 then
      (if f ⟨k + 1, h⟩ = 'X' then k + 1 else scan_down f k)
    else scan_down f k

/-- Upward scan worker: `fuel` counts the indices still to inspect, so the
recursion is structural (and hence kernel-computable). -/
def scan_up_aux (f : Fin 7 → Char) : Nat → Nat → Nat
  | 0, _ => 6
  | fuel + 1, k =>
    if h : k < 6 then
      (if f ⟨k, by omega⟩ = 'X' then k else scan_up_aux f fuel (k + 1))
    else 6

/-- The scan `for num in range(column,7): if blank: max=num; break` of
`move_right` (and, on a column, of `move_backward`): the smallest index
`j ≥ k` holding a blank, defaulting to `6`.  A blank found at index `6`
coincides with the default, so index `6` need not be inspected. -/
def scan_up (f : Fin 7 → Char) (k : Nat) : Nat := scan_up_aux f (6 - k) k

/-- `KubaGame.move_left`.  Pushes the marble at `(row, column)` toward lower
column indices.  `none` models `return False`. -/
def move_left (b : Board) (ng : Option NoGo) (row column : Fin 7) (pcolor : Char) :
    Option PushOut :=
  -- cell to the right of the origin must be blank (or the origin at the right edge)
  if column.val ≠ 6 ∧ b row (column + 1) ≠ 'X' then none
  else
    let minv := scan_down (fun j => b row j) column.val
    -- pushing one's own marble off the left edge is forbidden
    if minv = 0 ∧ b row 0 = pcolor then none
    -- the no-go (repetition) check
    else if ng = some (row.val, column.val, "L") then none
    else
      let captured : Option Char := if minv = 0 ∧ b row 0 ≠ 'X' then some (b row 0) else none
      let b' : Board := fun r c =>
        if r = row then
          if minv ≤ c.val ∧ c.val < column.val then b row (c + 1)
          else if c = column then 'X' else b row c
        else b r c
      let token : Option NoGo :=
        if minv = 0 ∧ b row 0 = 'X' then some (row.val, minv, "R") else none
      some (b', captured, token)

/-- `KubaGame.move_right`. -/
def move_right (b : Board) (ng : Option NoGo) (row column : Fin 7) (pcolor : Char) :
    Option PushOut :=
  if column.val ≠ 0 ∧ b row (column - 1) ≠ 'X' then none
  else
    let maxv := scan_up (fun j => b row j) column.val
    if maxv = 6 ∧ b row 6 = pcolor then none
    else if ng = some (row.val, column.val, "R") then none
    else
      let captured : Option Char := if maxv = 6 ∧ b row 6 ≠ 'X' then some (b row 6) else none
      let b' : Board := fun r c =>
        if r = row then
          if column.val < c.val ∧ c.val ≤ maxv then b row (c - 1)
          else if c = column then 'X' else b row c
        else b r c
      let token : Option NoGo :=
        if maxv = 6 ∧ b row 6 = 'X' then some (row.val, maxv, "L") else none
      some (b', captured, token)

/-- `KubaGame.move_forward` (toward lower row indices). -/
def move_forward (b : Board) (ng : Option NoGo) (row column : Fin 7) (pcolor : Char) :
    Option PushOut :=
  if row.val ≠ 6 ∧ b (row + 1) column ≠ 'X' then none
  else
    let minv := scan_down (fun i => b i column) row.val
    if minv = 0 ∧ b 0 column = pcolor then none
    else if ng = some (row.val, column.val, "F") then none
    else
      let captured : Option Char := if minv = 0 ∧ b 0 column ≠ 'X' then some (b 0 column) else none
      let b' : Board := fun r c =>
        if c = column then
          if minv ≤ r.val ∧ r.val < row.val then b (r + 1) column
          else if r = row then 'X' else b r c
        else b r c
      let token : Option NoGo :=
        if minv = 0 ∧ b 0 column = 'X' then some (minv, column.val, "B") else none
      some (b', captured, token)

/-- `KubaGame.move_backward` (toward higher row indices). -/
def move_backward (b : Board) (ng : Option NoGo) (row column : Fin 7) (pcolor : Char) :
    Option PushOut :=
  if row.val ≠ 0 ∧ b (row - 1) column ≠ 'X' then none
  else
    let maxv := scan_up (fun i => b i column) row.val
    if maxv = 6 ∧ b 6 column = pcolor then none
    else if ng = some (row.val, column.val, "B") then none
    else
      let captured : Option Char := if maxv = 6 ∧ b 6 column ≠ 'X' then some (b 6 column) else none
      let b' : Board := fun r c =>
        if c = column then
          if row.val < r.val ∧ r.val ≤ maxv then b (r - 1) column
          else if r = row then 'X' else b r c
        else b r c
      let token : Option NoGo :=
        if maxv = 6 ∧ b 6 column = 'X' then some (maxv, column.val, "F") else none
      some (b', captured, token)

/-- The mobility scan of `make_move` (lines 195–209): the current player can
move iff some cell of the player's color admits a successful push in some
direction under the current no-go move.  The Python loop mutates and then
restores `self._no_go_move`; the first succeeding test already sets
`can_move` before any mutation can influence the disjunction, so the loop
computes exactly this predicate. -/
def can_move (b : Board) (pcolor : Char) (ng : Option NoGo) : Bool :=
  (List.finRange 7).any fun row => (List.finRange 7).any fun column =>
    b row column == pcolor &&
      ((move_left b ng row column pcolor).isSome || (move_right b ng row column pcolor).isSome ||
       (move_forward b ng row column pcolor).isSome ||
       (move_backward b ng row column pcolor).isSome)

/-- `KubaGame.update_marbles`: returns the updated capturing player together
with the updated `(red, white, black)` board tallies. -/
def update_marbles (cell_captured : Char) (p : KubaPlayer) (red white black : Int) :
    KubaPlayer × Int × Int × Int :=
  if cell_captured = 'R' then ({ p with red := p.red + 1 }, red - 1, white, black)
  else if cell_captured = 'W' then
    ({ p with opponent_marbles := p.opponent_marbles + 1 }, red, white - 1, black)
  else ({ p with opponent_marbles := p.opponent_marbles + 1 }, red, white, black - 1)

/-- Lines 176–185 of `make_move`: resolve the requesting player, returning
`(current, other, curr)` with `curr` the index in the player list, or `none`
for an unknown name. -/
def resolve_player (g : KubaGame) (playername : String) :
    Option (KubaPlayer × KubaPlayer × Nat) :=
  if g.players.1.name = playername then some (g.players.1, g.players.2, 0)
  else if g.players.2.name = playername then some (g.players.2, g.players.1, 1)
  else none

/-- Line 234 of `make_move`: the capture bookkeeping is applied only when a
marble was captured. -/
def capture_update (cap : Option Char) (current : KubaPlayer) (red white black : Int) :
    KubaPlayer × Int × Int × Int :=
  match cap with
  | some ch => update_marbles ch current red white black
  | none => (current, red, white, black)

/-- The state committed by a successful push (lines 232–260 of `make_move`):
board replaced by the scratch board, captures resolved, win thresholds
evaluated on the capturing player's updated counters, turn flipped. -/
def commit_state (g : KubaGame) (playername : String) (current : KubaPlayer) (curr : Nat)
    (out : PushOut) : KubaGame :=
  let upd := capture_update out.2.1 current g.red g.white g.black
  { g with
      board := out.1
      players := if curr = 0 then (upd.1, g.players.2) else (g.players.1, upd.1)
      red := upd.2.1
      white := upd.2.2.1
      black := upd.2.2.2
      no_go_move := out.2.2
      winner := if 8 ≤ upd.1.opponent_marbles ∨ 7 ≤ upd.1.red then some playername else g.winner
      turn := some (if curr = 0 then g.players.2.name else g.players.1.name) }

/-- Lines 232–260 of `make_move`: commit a push result.  On `none` the move
fails, on `some` the simulated push is committed. -/
def commit_move (g : KubaGame) (playername : String) (current : KubaPlayer) (curr : Nat) :
    Option PushOut → Bool × KubaGame
  | none => (false, g)
  | some out => (true, commit_state g playername current curr out)

/-- Lines 187–260 of `make_move`, after the requesting player has been
resolved: the own-marble check, the mobility check (which on failure crowns
the opponent), the direction dispatch and the commit. -/
def make_move_go (g : KubaGame) (playername : String) (current other : KubaPlayer)
    (curr : Nat) (row column : Fin 7) (direction : String) : Bool × KubaGame :=
  if g.board row column ≠ current.color then (false, g)
  else if can_move g.board current.color g.no_go_move = false then
    (false, { g with winner := some other.name })
  else if direction = "L" then
    commit_move g playername current curr (move_left g.board g.no_go_move row column current.color)
  else if direction = "R" then
    commit_move g playername current curr (move_right g.board g.no_go_move row column current.color)
  else if direction = "F" then
    commit_move g playername current curr (move_forward g.board g.no_go_move row column current.color)
  else if direction = "B" then
    commit_move g playername current curr (move_backward g.board g.no_go_move row column current.color)
  else (false, g)

/-- Lines 153–156 of `make_move`: the first call of a match stores the
requester's name as the player whose turn it is, before any validation. -/
def fix_turn (g0 : KubaGame) (playername : String) : KubaGame :=
  if g0.turn = none then { g0 with turn := some playername } else g0

/-- `make_move` after the first-call turn fix: turn enforcement, game-over
check, coordinate validation, player resolution, and the push itself. -/
def make_move_main (g : KubaGame) (playername : String) (coordinates : Int × Int)
    (direction : String) : Bool × KubaGame :=
  if g.turn ≠ some playername then (false, g)
  else if g.winner ≠ none then (false, g)
  else if coordinates.1 < 0 ∨ 6 < coordinates.1 ∨ coordinates.2 < 0 ∨ 6 < coordinates.2 then
    (false, g)
  else
    match resolve_player g playername with
    | none => (false, g)
    | some (current, other, curr) =>
      make_move_go g playername current other curr
        (fin7 coordinates.1.toNat) (fin7 coordinates.2.toNat) direction

/-- `KubaGame.make_move`.  Coordinates are arbitrary integers exactly as in
Python (they are validated against `[0,6]` before any board access);
the direction is an arbitrary string. -/
def make_move (g0 : KubaGame) (playername : String) (coordinates : Int × Int)
    (direction : String) : Bool × KubaGame :=
  make_move_main (fix_turn g0 playername) playername coordinates direction

/-- `KubaGame.get_marble_count`: the `(white, black, red)` tallies. -/
def get_marble_count (g : KubaGame) : Int × Int × Int := (g.white, g.black, g.red)

/-- The initial board of `KubaGame.__init__`, transcribed cell for cell. -/
def initBoard : Board := toBoard
  [ ['W', 'W', 'X', 'X', 'X', 'B', 'B'],
    ['W', 'W', 'X', 'R', 'X', 'B', 'B'],
    ['X', 'X', 'R', 'R', 'R', 'X', 'W'],
    ['X', 'R', 'R', 'R', 'R', 'R', 'X'],
    ['X', 'X', 'R', 'R', 'R', 'X', 'X'],
    ['B', 'B', 'X', 'R', 'X', 'W', 'W'],
    ['B', 'B', 'X', 'X', 'X', 'W', 'W'] ]

/-- `KubaGame.__init__`. -/
def initGame (pc1 pc2 : String × Char) : KubaGame where
  players := (⟨pc1.1, pc1.2, 0, 0⟩, ⟨pc2.1, pc2.2, 0, 0⟩)
  winner := none
  turn := none
  board := initBoard
  red := 13
  white := 8
  black := 8
  no_go_move := none

/-- Number of cells of the board holding the marble color `ch`. -/
def countColor (b : Board) (ch : Char) : Nat :=
  ((List.finRange 7).map fun r => ((List.finRange 7).filter fun c => b r c == ch).length).sum

/-- Total number of marbles on the board: neutral plus both player colors. -/
def totalMarbles (b : Board) : Nat := countColor b 'W' + countColor b 'B' + countColor b 'R'

/-! ### Concrete states used by counterexamples and witnesses -/

/-- A freshly constructed game between `PlayerA` (white) and `PlayerB` (black). -/
def G0 : KubaGame := initGame ("PlayerA", 'W') ("PlayerB", 'B')

/-- A board whose only marbles are `B` at `(3,1)` and `W` at `(3,2)`:
white's left push at `(3,2)` is capture-free and fills the far-edge cell. -/
def B6 : Board := toBoard
  [ [], [], [],
    ['X', 'B', 'W', 'X', 'X', 'X', 'X'],
    [], [], [] ]

/-- Mid-game state on `B6`, white ("A") to move. -/
def G6 : KubaGame where
  players := (⟨"A", 'W', 0, 0⟩, ⟨"B", 'B', 0, 0⟩)
  winner := none
  turn := some "A"
  board := B6
  red := 1
  white := 1
  black := 1
  no_go_move := none

/-- `B6` after white's push at `(3,2)` toward the left. -/
def B6' : Board := toBoard
  [ [], [], [],
    ['B', 'W', 'X', 'X', 'X', 'X', 'X'],
    [], [], [] ]

/-- The state reached from `G6` by `make_move "A" (3,2) "L"`. -/
def G6' : KubaGame := { G6 with board := B6', no_go_move := some (3, 0, "R"), turn := some "B" }

/-- A board on which white (at the four corners) has no legal push in any
direction: every scan toward an edge ends at white's own corner marble, and
every cell behind a corner is occupied. -/
def B7 : Board := toBoard
  [ ['W', 'B', 'B', 'B', 'B', 'B', 'W'],
    ['B', 'X', 'X', 'X', 'X', 'X', 'B'],
    ['B', 'X', 'X', 'X', 'X', 'X', 'B'],
    ['B', 'X', 'X', 'X', 'X', 'X', 'B'],
    ['B', 'X', 'X', 'X', 'X', 'X', 'B'],
    ['B', 'X', 'X', 'X', 'X', 'X', 'B'],
    ['W', 'B', 'B', 'B', 'B', 'B', 'W'] ]

/-- Mid-game state on `B7`, white ("A") to move but unable to move. -/
def G7 : KubaGame where
  players := (⟨"A", 'W', 0, 0⟩, ⟨"B", 'B', 0, 0⟩)
  winner := none
  turn := some "A"
  board := B7
  red := 0
  white := 4
  black := 16
  no_go_move := none

/-- A board with white at `(0,5)` and a neutral marble at `(0,6)`:
the push right at `(0,5)` captures the neutral marble. -/
def B9 : Board := toBoard
  [ ['X', 'X', 'X', 'X', 'X', 'W', 'R'],
    [], [], [], [], [], [] ]

/-- Mid-game state on `B9`: white ("A") has six captured reds, so the next
neutral capture is the seventh. -/
def G9 : KubaGame where
  players := (⟨"A", 'W', 6, 0⟩, ⟨"B", 'B', 0, 0⟩)
  winner := none
  turn := some "A"
  board := B9
  red := 1
  white := 1
  black := 0
  no_go_move := none

/-- The state reached from `G9` by `make_move "A" (0,5) "R"`. -/
def G9' : KubaGame where
  players := (⟨"A", 'W', 7, 0⟩, ⟨"B", 'B', 0, 0⟩)
  winner := some "A"
  turn := some "B"
  board := toBoard [ ['X', 'X', 'X', 'X', 'X', 'X', 'W'], [], [], [], [], [], [] ]
  red := 0
  white := 1
  black := 0
  no_go_move := none

/-! ### Basic lemmas -/

theorem fin7_val {n : Nat} (h : n < 7) : (fin7 n).val = n := Nat.mod_eq_of_lt h

/-- Converting an in-range coordinate through `Int` and back is the identity. -/
theorem fin7_int_coe (r : Fin 7) : fin7 ((r.val : Int)).toNat = r := by
  have h : ((r.val : Int)).toNat = r.val := by omega
  rw [h]
  exact Fin.ext (Nat.mod_eq_of_lt r.isLt)

theorem fix_turn_of_some {g : KubaGame} (p : String) (h : g.turn ≠ none) :
    fix_turn g p = g := by
  simp [fix_turn, h]

theorem fix_turn_of_none {g : KubaGame} (p : String) (h : g.turn = none) :
    fix_turn g p = { g with turn := some p } := by
  simp [fix_turn, h]

/-- `scan_down` never exceeds its starting index. -/
theorem scan_down_le (f : Fin 7 → Char) (k : Nat) : scan_down f k ≤ k := by
  induction k with
  | zero => simp [scan_down]
  | succ n ih =>
    simp only [scan_down]
    split
    · split
      · exact Nat.le_refl _
      · exact Nat.le_trans ih (Nat.le_succ n)
    · exact Nat.le_trans ih (Nat.le_succ n)

/-- The downward scan defaults to `0` exactly when no blank cell lies at an
index in `[1, k]`. -/
theorem scan_down_eq_zero_iff (f : Fin 7 → Char) (k : Nat) (hk : k ≤ 6) :
    scan_down f k = 0 ↔ ∀ j : Fin 7, 1 ≤ j.val → j.val ≤ k → f j ≠ 'X' := by
  induction k with
  | zero =>
    constructor
    · intro _ j h1 h2
      omega
    · intro _
      rfl
  | succ n ih =>
    have hn : n ≤ 6 := by omega
    have h7 : n + 1 < 7 := by omega
    rw [scan_down, dif_pos h7]
    by_cases hf : f ⟨n + 1, h7⟩ = 'X'
    · rw [if_pos hf]
      constructor
      · intro h
        exact absurd h (by omega)
      · intro hall
        exact absurd hf (hall ⟨n + 1, h7⟩ (by show 1 ≤ n + 1; omega) (by show n + 1 ≤ n + 1; omega))
    · rw [if_neg hf, ih hn]
      constructor
      · intro hall j h1 h2
        rcases Nat.lt_or_ge j.val (n + 1) with hj | hj
        · exact hall j h1 (by omega)
        · have hje : j = ⟨n + 1, h7⟩ := Fin.ext (show j.val = n + 1 by omega)
          rw [hje]
          exact hf
      · intro hall j h1 h2
        exact hall j h1 (by omega)

/-- The upward-scan worker defaults to `6` exactly when no blank cell lies
at an index in `[k, 5]` (under the fuel discipline `fuel + k = 6`). -/
theorem scan_up_aux_eq_six_iff (f : Fin 7 → Char) (fuel : Nat) :
    ∀ k : Nat, fuel + k = 6 →
      (scan_up_aux f fuel k = 6 ↔ ∀ j : Fin 7, k ≤ j.val → j.val ≤ 5 → f j ≠ 'X') := by
  induction fuel with
  | zero =>
    intro k hk
    constructor
    · intro _ j h1 h2
      omega
    · intro _
      rfl
  | succ n ih =>
    intro k hk
    have hklt : k < 6 := by omega
    have hk7 : k < 7 := by omega
    rw [scan_up_aux, dif_pos hklt]
    by_cases hf : f ⟨k, by omega⟩ = 'X'
    · rw [if_pos hf]
      constructor
      · intro h
        exact absurd h (by omega)
      · intro hall
        exact absurd hf (hall ⟨k, by omega⟩ (by show k ≤ k; omega) (by show k ≤ 5; omega))
    · rw [if_neg hf, ih (k + 1) (by omega)]
      constructor
      · intro hall j h1 h2
        rcases Nat.lt_or_ge k j.val with hj | hj
        · exact hall j (by omega) h2
        · have hje : j = ⟨k, hk7⟩ := Fin.ext (show j.val = k by omega)
          rw [hje]
          exact hf
      · intro hall j h1 h2
        exact hall j (by omega) h2

/-- The upward scan defaults to `6` exactly when no blank cell lies at an
index in `[k, 5]`. -/
theorem scan_up_eq_six_iff (f : Fin 7 → Char) (k : Nat) (hk : k ≤ 6) :
    scan_up f k = 6 ↔ ∀ j : Fin 7, k ≤ j.val → j.val ≤ 5 → f j ≠ 'X' :=
  scan_up_aux_eq_six_iff f (6 - k) k (by omega)

/-! ### Characterization of the no-go token produced by each push -/

/-- A successful left push records the no-go token exactly when the scan's
first blank cell is the far-edge cell `(row, 0)` itself, and then records
that cell with the opposite direction; any capture clears the token. -/
theorem move_left_token_spec (b : Board) (ng : Option NoGo) (row column : Fin 7) (pcolor : Char)
    (out : PushOut) (h : move_left b ng row column pcolor = some out) :
    out.2.2 = (if (∀ j : Fin 7, 1 ≤ j.val → j.val ≤ column.val → b row j ≠ 'X') ∧ b row 0 = 'X'
               then some (row.val, 0, "R") else none) ∧
    (out.2.1 ≠ none → out.2.2 = none) := by
  simp only [move_left] at h
  split at h
  · exact Option.noConfusion h
  · split at h
    · exact Option.noConfusion h
    · split at h
      · exact Option.noConfusion h
      · injection h with h
        subst h
        constructor
        · by_cases hc : (∀ j : Fin 7, 1 ≤ j.val → j.val ≤ column.val → b row j ≠ 'X') ∧
              b row 0 = 'X'
          · rw [if_pos hc]
            have hm0 : scan_down (fun j => b row j) column.val = 0 :=
              (scan_down_eq_zero_iff _ _ (by omega)).mpr hc.1
            rw [hm0]
            exact if_pos ⟨rfl, hc.2⟩
          · rw [if_neg hc]
            by_cases hm0 : scan_down (fun j => b row j) column.val = 0
            · have hA : ∀ j : Fin 7, 1 ≤ j.val → j.val ≤ column.val → b row j ≠ 'X' :=
                (scan_down_eq_zero_iff _ _ (by omega)).mp hm0
              have hB : ¬ b row 0 = 'X' := fun hb => hc ⟨hA, hb⟩
              exact if_neg (fun hx => hB hx.2)
            · exact if_neg (fun hx => hm0 hx.1)
        · intro hcap
          by_cases hcc : scan_down (fun j => b row j) column.val = 0 ∧ b row 0 ≠ 'X'
          · exact if_neg (fun hx => hcc.2 hx.2)
          · exact absurd (if_neg hcc) hcap

/-- Right-push analogue of `move_left_token_spec`. -/
theorem move_right_token_spec (b : Board) (ng : Option NoGo) (row column : Fin 7) (pcolor : Char)
    (out : PushOut) (h : move_right b ng row column pcolor = some out) :
    out.2.2 = (if (∀ j : Fin 7, column.val ≤ j.val → j.val ≤ 5 → b row j ≠ 'X') ∧ b row 6 = 'X'
               then some (row.val, 6, "L") else none) ∧
    (out.2.1 ≠ none → out.2.2 = none) := by
  simp only [move_right] at h
  split at h
  · exact Option.noConfusion h
  · split at h
    · exact Option.noConfusion h
    · split at h
      · exact Option.noConfusion h
      · injection h with h
        subst h
        constructor
        · by_cases hc : (∀ j : Fin 7, column.val ≤ j.val → j.val ≤ 5 → b row j ≠ 'X') ∧
              b row 6 = 'X'
          · rw [if_pos hc]
            have hm6 : scan_up (fun j => b row j) column.val = 6 :=
              (scan_up_eq_six_iff _ _ (by omega)).mpr hc.1
            rw [hm6]
            exact if_pos ⟨rfl, hc.2⟩
          · rw [if_neg hc]
            by_cases hm6 : scan_up (fun j => b row j) column.val = 6
            · have hA : ∀ j : Fin 7, column.val ≤ j.val → j.val ≤ 5 → b row j ≠ 'X' :=
                (scan_up_eq_six_iff _ _ (by omega)).mp hm6
              have hB : ¬ b row 6 = 'X' := fun hb => hc ⟨hA, hb⟩
              exact if_neg (fun hx => hB hx.2)
            · exact if_neg (fun hx => hm6 hx.1)
        · intro hcap
          by_cases hcc : scan_up (fun j => b row j) column.val = 6 ∧ b row 6 ≠ 'X'
          · exact if_neg (fun hx => hcc.2 hx.2)
          · exact absurd (if_neg hcc) hcap

/-- Forward-push analogue of `move_left_token_spec`. -/
theorem move_forward_token_spec (b : Board) (ng : Option NoGo) (row column : Fin 7) (pcolor : Char)
    (out : PushOut) (h : move_forward b ng row column pcolor = some out) :
    out.2.2 = (if (∀ i : Fin 7, 1 ≤ i.val → i.val ≤ row.val → b i column ≠ 'X') ∧ b 0 column = 'X'
               then some (0, column.val, "B") else none) ∧
    (out.2.1 ≠ none → out.2.2 = none) := by
  simp only [move_forward] at h
  split at h
  · exact Option.noConfusion h
  · split at h
    · exact Option.noConfusion h
    · split at h
      · exact Option.noConfusion h
      · injection h with h
        subst h
        constructor
        · by_cases hc : (∀ i : Fin 7, 1 ≤ i.val → i.val ≤ row.val → b i column ≠ 'X') ∧
              b 0 column = 'X'
          · rw [if_pos hc]
            have hm0 : scan_down (fun i => b i column) row.val = 0 :=
              (scan_down_eq_zero_iff _ _ (by omega)).mpr hc.1
            rw [hm0]
            exact if_pos ⟨rfl, hc.2⟩
          · rw [if_neg hc]
            by_cases hm0 : scan_down (fun i => b i column) row.val = 0
            · have hA : ∀ i : Fin 7, 1 ≤ i.val → i.val ≤ row.val → b i column ≠ 'X' :=
                (scan_down_eq_zero_iff _ _ (by omega)).mp hm0
              have hB : ¬ b 0 column = 'X' := fun hb => hc ⟨hA, hb⟩
              exact if_neg (fun hx => hB hx.2)
            · exact if_neg (fun hx => hm0 hx.1)
        · intro hcap
          by_cases hcc : scan_down (fun i => b i column) row.val = 0 ∧ b 0 column ≠ 'X'
          · exact if_neg (fun hx => hcc.2 hx.2)
          · exact absurd (if_neg hcc) hcap

/-- Backward-push analogue of `move_left_token_spec`. -/
theorem move_backward_token_spec (b : Board) (ng : Option NoGo) (row column : Fin 7)
    (pcolor : Char) (out : PushOut) (h : move_backward b ng row column pcolor = some out) :
    out.2.2 = (if (∀ i : Fin 7, row.val ≤ i.val → i.val ≤ 5 → b i column ≠ 'X') ∧ b 6 column = 'X'
               then some (6, column.val, "F") else none) ∧
    (out.2.1 ≠ none → out.2.2 = none) := by
  simp only [move_backward] at h
  split at h
  · exact Option.noConfusion h
  · split at h
    · exact Option.noConfusion h
    · split at h
      · exact Option.noConfusion h
      · injection h with h
        subst h
        constructor
        · by_cases hc : (∀ i : Fin 7, row.val ≤ i.val → i.val ≤ 5 → b i column ≠ 'X') ∧
              b 6 column = 'X'
          · rw [if_pos hc]
            have hm6 : scan_up (fun i => b i column) row.val = 6 :=
              (scan_up_eq_six_iff _ _ (by omega)).mpr hc.1
            rw [hm6]
            exact if_pos ⟨rfl, hc.2⟩
          · rw [if_neg hc]
            by_cases hm6 : scan_up (fun i => b i column) row.val = 6
            · have hA : ∀ i : Fin 7, row.val ≤ i.val → i.val ≤ 5 → b i column ≠ 'X' :=
                (scan_up_eq_six_iff _ _ (by omega)).mp hm6
              have hB : ¬ b 6 column = 'X' := fun hb => hc ⟨hA, hb⟩
              exact if_neg (fun hx => hB hx.2)
            · exact if_neg (fun hx => hm6 hx.1)
        · intro hcap
          by_cases hcc : scan_up (fun i => b i column) row.val = 6 ∧ b 6 column ≠ 'X'
          · exact if_neg (fun hx => hcc.2 hx.2)
          · exact absurd (if_neg hcc) hcap

/-! ### The vacated origin, token (ir)relevance, and mobility lemmas -/

/-- A successful left push leaves the origin cell empty. -/
theorem move_left_origin (b : Board) (ng : Option NoGo) (row column : Fin 7) (pcolor : Char)
    (out : PushOut) (h : move_left b ng row column pcolor = some out) :
    out.1 row column = 'X' := by
  simp only [move_left] at h
  split at h
  · exact Option.noConfusion h
  · split at h
    · exact Option.noConfusion h
    · split at h
      · exact Option.noConfusion h
      · injection h with h
        subst h
        simp

/-- A successful right push leaves the origin cell empty. -/
theorem move_right_origin (b : Board) (ng : Option NoGo) (row column : Fin 7) (pcolor : Char)
    (out : PushOut) (h : move_right b ng row column pcolor = some out) :
    out.1 row column = 'X' := by
  simp only [move_right] at h
  split at h
  · exact Option.noConfusion h
  · split at h
    · exact Option.noConfusion h
    · split at h
      · exact Option.noConfusion h
      · injection h with h
        subst h
        simp

/-- A successful forward push leaves the origin cell empty. -/
theorem move_forward_origin (b : Board) (ng : Option NoGo) (row column : Fin 7) (pcolor : Char)
    (out : PushOut) (h : move_forward b ng row column pcolor = some out) :
    out.1 row column = 'X' := by
  simp only [move_forward] at h
  split at h
  · exact Option.noConfusion h
  · split at h
    · exact Option.noConfusion h
    · split at h
      · exact Option.noConfusion h
      · injection h with h
        subst h
        simp

/-- A successful backward push leaves the origin cell empty. -/
theorem move_backward_origin (b : Board) (ng : Option NoGo) (row column : Fin 7) (pcolor : Char)
    (out : PushOut) (h : move_backward b ng row column pcolor = some out) :
    out.1 row column = 'X' := by
  simp only [move_backward] at h
  split at h
  · exact Option.noConfusion h
  · split at h
    · exact Option.noConfusion h
    · split at h
      · exact Option.noConfusion h
      · injection h with h
        subst h
        simp

/-- The left push consults the no-go move only through the exact triple
`(row, column, "L")`; any other token is as good as no token. -/
theorem move_left_ng_irrel (b : Board) (ng : Option NoGo) (row column : Fin 7) (pcolor : Char)
    (hng : ng ≠ some (row.val, column.val, "L")) :
    move_left b ng row column pcolor = move_left b none row column pcolor := by
  simp only [move_left]
  by_cases h1 : column.val ≠ 6 ∧ b row (column + 1) ≠ 'X'
  · rw [if_pos h1, if_pos h1]
  · rw [if_neg h1, if_neg h1]
    by_cases h2 : scan_down (fun j => b row j) column.val = 0 ∧ b row 0 = pcolor
    · rw [if_pos h2, if_pos h2]
    · rw [if_neg h2, if_neg h2, if_neg hng,
        if_neg (by simp : ¬((none : Option NoGo) = some (row.val, column.val, "L")))]

/-- Right-push analogue of `move_left_ng_irrel`. -/
theorem move_right_ng_irrel (b : Board) (ng : Option NoGo) (row column : Fin 7) (pcolor : Char)
    (hng : ng ≠ some (row.val, column.val, "R")) :
    move_right b ng row column pcolor = move_right b none row column pcolor := by
  simp only [move_right]
  by_cases h1 : column.val ≠ 0 ∧ b row (column - 1) ≠ 'X'
  · rw [if_pos h1, if_pos h1]
  · rw [if_neg h1, if_neg h1]
    by_cases h2 : scan_up (fun j => b row j) column.val = 6 ∧ b row 6 = pcolor
    · rw [if_pos h2, if_pos h2]
    · rw [if_neg h2, if_neg h2, if_neg hng,
        if_neg (by simp : ¬((none : Option NoGo) = some (row.val, column.val, "R")))]

/-- Forward-push analogue of `move_left_ng_irrel`. -/
theorem move_forward_ng_irrel (b : Board) (ng : Option NoGo) (row column : Fin 7) (pcolor : Char)
    (hng : ng ≠ some (row.val, column.val, "F")) :
    move_forward b ng row column pcolor = move_forward b none row column pcolor := by
  simp only [move_forward]
  by_cases h1 : row.val ≠ 6 ∧ b (row + 1) column ≠ 'X'
  · rw [if_pos h1, if_pos h1]
  · rw [if_neg h1, if_neg h1]
    by_cases h2 : scan_down (fun i => b i column) row.val = 0 ∧ b 0 column = pcolor
    · rw [if_pos h2, if_pos h2]
    · rw [if_neg h2, if_neg h2, if_neg hng,
        if_neg (by simp : ¬((none : Option NoGo) = some (row.val, column.val, "F")))]

/-- Backward-push analogue of `move_left_ng_irrel`. -/
theorem move_backward_ng_irrel (b : Board) (ng : Option NoGo) (row column : Fin 7) (pcolor : Char)
    (hng : ng ≠ some (row.val, column.val, "B")) :
    move_backward b ng row column pcolor = move_backward b none row column pcolor := by
  simp only [move_backward]
  by_cases h1 : row.val ≠ 0 ∧ b (row - 1) column ≠ 'X'
  · rw [if_pos h1, if_pos h1]
  · rw [if_neg h1, if_neg h1]
    by_cases h2 : scan_up (fun i => b i column) row.val = 6 ∧ b 6 column = pcolor
    · rw [if_pos h2, if_pos h2]
    · rw [if_neg h2, if_neg h2, if_neg hng,
        if_neg (by simp : ¬((none : Option NoGo) = some (row.val, column.val, "B")))]

/-- A left push whose origin and direction match the no-go token fails. -/
theorem move_left_token_reject (b : Board) (row column : Fin 7) (pcolor : Char) :
    move_left b (some (row.val, column.val, "L")) row column pcolor = none := by
  simp only [move_left]
  by_cases h1 : column.val ≠ 6 ∧ b row (column + 1) ≠ 'X'
  · rw [if_pos h1]
  · rw [if_neg h1]
    by_cases h2 : scan_down (fun j => b row j) column.val = 0 ∧ b row 0 = pcolor
    · rw [if_pos h2]
    · rw [if_neg h2]
      simp

/-- A right push whose origin and direction match the no-go token fails. -/
theorem move_right_token_reject (b : Board) (row column : Fin 7) (pcolor : Char) :
    move_right b (some (row.val, column.val, "R")) row column pcolor = none := by
  simp only [move_right]
  by_cases h1 : column.val ≠ 0 ∧ b row (column - 1) ≠ 'X'
  · rw [if_pos h1]
  · rw [if_neg h1]
    by_cases h2 : scan_up (fun j => b row j) column.val = 6 ∧ b row 6 = pcolor
    · rw [if_pos h2]
    · rw [if_neg h2]
      simp

/-- A forward push whose origin and direction match the no-go token fails. -/
theorem move_forward_token_reject (b : Board) (row column : Fin 7) (pcolor : Char) :
    move_forward b (some (row.val, column.val, "F")) row column pcolor = none := by
  simp only [move_forward]
  by_cases h1 : row.val ≠ 6 ∧ b (row + 1) column ≠ 'X'
  · rw [if_pos h1]
  · rw [if_neg h1]
    by_cases h2 : scan_down (fun i => b i column) row.val = 0 ∧ b 0 column = pcolor
    · rw [if_pos h2]
    · rw [if_neg h2]
      simp

/-- A backward push whose origin and direction match the no-go token fails. -/
theorem move_backward_token_reject (b : Board) (row column : Fin 7) (pcolor : Char) :
    move_backward b (some (row.val, column.val, "B")) row column pcolor = none := by
  simp only [move_backward]
  by_cases h1 : row.val ≠ 0 ∧ b (row - 1) column ≠ 'X'
  · rw [if_pos h1]
  · rw [if_neg h1]
    by_cases h2 : scan_up (fun i => b i column) row.val = 6 ∧ b 6 column = pcolor
    · rw [if_pos h2]
    · rw [if_neg h2]
      simp

/-- A push legal under some token stays legal (with the same outcome) when
the token is erased. -/
theorem move_left_some_erase (b : Board) (ng : Option NoGo) (row column : Fin 7) (pcolor : Char)
    (out : PushOut) (h : move_left b ng row column pcolor = some out) :
    move_left b none row column pcolor = some out := by
  by_cases hng : ng = some (row.val, column.val, "L")
  · rw [hng, move_left_token_reject] at h
    exact Option.noConfusion h
  · rw [← move_left_ng_irrel b ng row column pcolor hng]
    exact h

/-- Right-push analogue of `move_left_some_erase`. -/
theorem move_right_some_erase (b : Board) (ng : Option NoGo) (row column : Fin 7) (pcolor : Char)
    (out : PushOut) (h : move_right b ng row column pcolor = some out) :
    move_right b none row column pcolor = some out := by
  by_cases hng : ng = some (row.val, column.val, "R")
  · rw [hng, move_right_token_reject] at h
    exact Option.noConfusion h
  · rw [← move_right_ng_irrel b ng row column pcolor hng]
    exact h

/-- Forward-push analogue of `move_left_some_erase`. -/
theorem move_forward_some_erase (b : Board) (ng : Option NoGo) (row column : Fin 7)
    (pcolor : Char) (out : PushOut) (h : move_forward b ng row column pcolor = some out) :
    move_forward b none row column pcolor = some out := by
  by_cases hng : ng = some (row.val, column.val, "F")
  · rw [hng, move_forward_token_reject] at h
    exact Option.noConfusion h
  · rw [← move_forward_ng_irrel b ng row column pcolor hng]
    exact h

/-- Backward-push analogue of `move_left_some_erase`. -/
theorem move_backward_some_erase (b : Board) (ng : Option NoGo) (row column : Fin 7)
    (pcolor : Char) (out : PushOut) (h : move_backward b ng row column pcolor = some out) :
    move_backward b none row column pcolor = some out := by
  by_cases hng : ng = some (row.val, column.val, "B")
  · rw [hng, move_backward_token_reject] at h
    exact Option.noConfusion h
  · rw [← move_backward_ng_irrel b ng row column pcolor hng]
    exact h

/-- A cell of the player's color admitting some successful push witnesses
mobility. -/
theorem can_move_of_cell (b : Board) (pcolor : Char) (ng : Option NoGo) (row column : Fin 7)
    (hcell : b row column = pcolor)
    (h : ((move_left b ng row column pcolor).isSome || (move_right b ng row column pcolor).isSome ||
          (move_forward b ng row column pcolor).isSome ||
          (move_backward b ng row column pcolor).isSome) = true) :
    can_move b pcolor ng = true := by
  unfold can_move
  rw [List.any_eq_true]
  refine ⟨row, List.mem_finRange row, ?_⟩
  rw [List.any_eq_true]
  refine ⟨column, List.mem_finRange column, ?_⟩
  rw [Bool.and_eq_true]
  exact ⟨by simp [hcell], h⟩

/-- A player who can move under the current token can also move with the
token erased. -/
theorem can_move_erase (b : Board) (pcolor : Char) (ng : Option NoGo)
    (h : can_move b pcolor ng = true) : can_move b pcolor none = true := by
  unfold can_move at h
  rw [List.any_eq_true] at h
  obtain ⟨row, _, hrow⟩ := h
  rw [List.any_eq_true] at hrow
  obtain ⟨column, _, hcol⟩ := hrow
  rw [Bool.and_eq_true] at hcol
  obtain ⟨hcell, hdir⟩ := hcol
  apply can_move_of_cell b pcolor none row column (by simpa using hcell)
  simp only [Bool.or_eq_true, Option.isSome_iff_exists] at hdir ⊢
  rcases hdir with ((⟨o, ho⟩ | ⟨o, ho⟩) | ⟨o, ho⟩) | ⟨o, ho⟩
  · exact Or.inl (Or.inl (Or.inl ⟨o, move_left_some_erase _ _ _ _ _ _ ho⟩))
  · exact Or.inl (Or.inl (Or.inr ⟨o, move_right_some_erase _ _ _ _ _ _ ho⟩))
  · exact Or.inl (Or.inr ⟨o, move_forward_some_erase _ _ _ _ _ _ ho⟩)
  · exact Or.inr ⟨o, move_backward_some_erase _ _ _ _ _ _ ho⟩


/-! ### Path analysis of `make_move` -/

/-- Every failing outcome of the dispatch-and-commit stage leaves all fields
unchanged, except that the winner is set — to the other player's name — when
and only when the mobility check finds the acting player without a legal
push. -/
theorem make_move_go_false_inv (g : KubaGame) (p : String) (current other : KubaPlayer)
    (curr : Nat) (row column : Fin 7) (d : String) (gf : KubaGame)
    (h : make_move_go g p current other curr row column d = (false, gf)) :
    gf.board = g.board ∧ gf.red = g.red ∧ gf.white = g.white ∧ gf.black = g.black ∧
    gf.players = g.players ∧ gf.no_go_move = g.no_go_move ∧ gf.turn = g.turn ∧
    (gf.winner = g.winner ∨
      (can_move g.board current.color g.no_go_move = false ∧
        gf.winner = some other.name)) := by
  unfold make_move_go at h
  split at h
  · injection h with h1 h2
    subst h2
    simp
  · split at h
    next hmob =>
      injection h with h1 h2
      subst h2
      exact ⟨rfl, rfl, rfl, rfl, rfl, rfl, rfl, Or.inr ⟨hmob, rfl⟩⟩
    · split at h
      · cases hmv : move_left g.board g.no_go_move row column current.color with
        | none =>
          rw [hmv] at h
          simp only [commit_move] at h
          injection h with h1 h2
          subst h2
          simp
        | some out =>
          rw [hmv] at h
          simp only [commit_move] at h
          exact absurd h (by simp)
      · split at h
        · cases hmv : move_right g.board g.no_go_move row column current.color with
          | none =>
            rw [hmv] at h
            simp only [commit_move] at h
            injection h with h1 h2
            subst h2
            simp
          | some out =>
            rw [hmv] at h
            simp only [commit_move] at h
            exact absurd h (by simp)
        · split at h
          · cases hmv : move_forward g.board g.no_go_move row column current.color with
            | none =>
              rw [hmv] at h
              simp only [commit_move] at h
              injection h with h1 h2
              subst h2
              simp
            | some out =>
              rw [hmv] at h
              simp only [commit_move] at h
              exact absurd h (by simp)
          · split at h
            · cases hmv : move_backward g.board g.no_go_move row column current.color with
              | none =>
                rw [hmv] at h
                simp only [commit_move] at h
                injection h with h1 h2
                subst h2
                simp
              | some out =>
                rw [hmv] at h
                simp only [commit_move] at h
                exact absurd h (by simp)
            · injection h with h1 h2
              subst h2
              simp


theorem make_move_main_false_inv (g : KubaGame) (p : String) (c : Int × Int) (d : String)
    (gf : KubaGame) (h : make_move_main g p c d = (false, gf)) :
    gf.board = g.board ∧ gf.red = g.red ∧ gf.white = g.white ∧ gf.black = g.black ∧
    gf.players = g.players ∧ gf.no_go_move = g.no_go_move ∧ gf.turn = g.turn ∧
    (gf.winner = g.winner ∨
      ∃ current other curr, resolve_player g p = some (current, other, curr) ∧
        can_move g.board current.color g.no_go_move = false ∧
        gf.winner = some other.name) := by
  unfold make_move_main at h
  split at h
  · injection h with h1 h2
    subst h2
    simp
  · split at h
    · injection h with h1 h2
      subst h2
      simp
    · split at h
      · injection h with h1 h2
        subst h2
        simp
      · split at h
        · injection h with h1 h2
          subst h2
          simp
        next current other curr heq =>
          obtain ⟨hb, hr, hw, hbl, hp, hn, ht, hwin⟩ :=
            make_move_go_false_inv _ _ _ _ _ _ _ _ _ h
          refine ⟨hb, hr, hw, hbl, hp, hn, ht, ?_⟩
          rcases hwin with hwin | ⟨hmob, hwin⟩
          · exact Or.inl hwin
          · exact Or.inr ⟨current, other, curr, heq, hmob, hwin⟩


theorem make_move_main_true_elim (g : KubaGame) (p : String) (c : Int × Int) (d : String)
    (g₁ : KubaGame) (h : make_move_main g p c d = (true, g₁)) :
    g.turn = some p ∧ g.winner = none ∧
    ∃ current other curr out,
      resolve_player g p = some (current, other, curr) ∧
      g.board (fin7 c.1.toNat) (fin7 c.2.toNat) = current.color ∧
      can_move g.board current.color g.no_go_move = true ∧
      ((d = "L" ∧ move_left g.board g.no_go_move (fin7 c.1.toNat) (fin7 c.2.toNat)
          current.color = some out) ∨
       (d = "R" ∧ move_right g.board g.no_go_move (fin7 c.1.toNat) (fin7 c.2.toNat)
          current.color = some out) ∨
       (d = "F" ∧ move_forward g.board g.no_go_move (fin7 c.1.toNat) (fin7 c.2.toNat)
          current.color = some out) ∨
       (d = "B" ∧ move_backward g.board g.no_go_move (fin7 c.1.toNat) (fin7 c.2.toNat)
          current.color = some out)) ∧
      g₁ = commit_state g p current curr out := by
  unfold make_move_main at h
  split at h
  · exact absurd h (by simp)
  next hturn =>
    split at h
    · exact absurd h (by simp)
    next hwinner =>
      split at h
      · exact absurd h (by simp)
      · split at h
        · exact absurd h (by simp)
        next current other curr heq =>
          refine ⟨by simpa using hturn, by simpa using hwinner, current, other, curr, ?_⟩
          unfold make_move_go at h
          split at h
          · exact absurd h (by simp)
          next hcell =>
            split at h
            · exact absurd h (by simp)
            next hmob =>
              split at h
              next hdir =>
                cases hmv : move_left g.board g.no_go_move
                    (fin7 c.1.toNat) (fin7 c.2.toNat) current.color with
                | none =>
                  rw [hmv] at h
                  simp only [commit_move] at h
                  exact absurd h (by simp)
                | some out =>
                  rw [hmv] at h
                  simp only [commit_move] at h
                  injection h with h1 h2
                  exact ⟨out, heq, by simpa using hcell, by simpa using hmob,
                    Or.inl ⟨hdir, rfl⟩, h2.symm⟩
              next hdir =>
                split at h
                next hdir2 =>
                  cases hmv : move_right g.board g.no_go_move
                      (fin7 c.1.toNat) (fin7 c.2.toNat) current.color with
                  | none =>
                    rw [hmv] at h
                    simp only [commit_move] at h
                    exact absurd h (by simp)
                  | some out =>
                    rw [hmv] at h
                    simp only [commit_move] at h
                    injection h with h1 h2
                    exact ⟨out, heq, by simpa using hcell, by simpa using hmob,
                      Or.inr (Or.inl ⟨hdir2, rfl⟩), h2.symm⟩
                next hdir2 =>
                  split at h
                  next hdir3 =>
                    cases hmv : move_forward g.board g.no_go_move
                        (fin7 c.1.toNat) (fin7 c.2.toNat) current.color with
                    | none =>
                      rw [hmv] at h
                      simp only [commit_move] at h
                      exact absurd h (by simp)
                    | some out =>
                      rw [hmv] at h
                      simp only [commit_move] at h
                      injection h with h1 h2
                      exact ⟨out, heq, by simpa using hcell, by simpa using hmob,
                        Or.inr (Or.inr (Or.inl ⟨hdir3, rfl⟩)), h2.symm⟩
                  next hdir3 =>
                    split at h
                    next hdir4 =>
                      cases hmv : move_backward g.board g.no_go_move
                          (fin7 c.1.toNat) (fin7 c.2.toNat) current.color with
                      | none =>
                        rw [hmv] at h
                        simp only [commit_move] at h
                        exact absurd h (by simp)
                      | some out =>
                        rw [hmv] at h
                        simp only [commit_move] at h
                        injection h with h1 h2
                        exact ⟨out, heq, by simpa using hcell, by simpa using hmob,
                          Or.inr (Or.inr (Or.inr ⟨hdir4, rfl⟩)), h2.symm⟩
                    next hdir4 =>
                      exact absurd h (by simp)

theorem fix_turn_board (g : KubaGame) (p : String) : (fix_turn g p).board = g.board := by
  unfold fix_turn
  split <;> rfl

theorem fix_turn_players (g : KubaGame) (p : String) : (fix_turn g p).players = g.players := by
  unfold fix_turn
  split <;> rfl

theorem fix_turn_no_go (g : KubaGame) (p : String) :
    (fix_turn g p).no_go_move = g.no_go_move := by
  unfold fix_turn
  split <;> rfl

theorem fix_turn_winner (g : KubaGame) (p : String) : (fix_turn g p).winner = g.winner := by
  unfold fix_turn
  split <;> rfl

theorem fix_turn_red (g : KubaGame) (p : String) : (fix_turn g p).red = g.red := by
  unfold fix_turn
  split <;> rfl

theorem fix_turn_white (g : KubaGame) (p : String) : (fix_turn g p).white = g.white := by
  unfold fix_turn
  split <;> rfl

theorem fix_turn_black (g : KubaGame) (p : String) : (fix_turn g p).black = g.black := by
  unfold fix_turn
  split <;> rfl

/-- Player resolution ignores the turn field, so it commutes with the
first-call turn fix. -/
theorem resolve_player_fix_turn (g : KubaGame) (p q : String) :
    resolve_player (fix_turn g p) q = resolve_player g q := by
  unfold fix_turn
  split <;> rfl

theorem make_move_main_bad_coords (g : KubaGame) (p : String) (c : Int × Int) (d : String)
    (hbad : c.1 < 0 ∨ 6 < c.1 ∨ c.2 < 0 ∨ 6 < c.2) :
    (make_move_main g p c d).fst = false := by
  unfold make_move_main
  by_cases h1 : g.turn ≠ some p
  · rw [if_pos h1]
  · rw [if_neg h1]
    by_cases h2 : g.winner ≠ none
    · rw [if_pos h2]
    · rw [if_neg h2, if_pos hbad]

theorem make_move_main_bad_dir (g : KubaGame) (p : String) (c : Int × Int) (d : String)
    (hL : d ≠ "L") (hR : d ≠ "R") (hF : d ≠ "F") (hB : d ≠ "B") :
    (make_move_main g p c d).fst = false := by
  unfold make_move_main
  by_cases h1 : g.turn ≠ some p
  · rw [if_pos h1]
  · rw [if_neg h1]
    by_cases h2 : g.winner ≠ none
    · rw [if_pos h2]
    · rw [if_neg h2]
      by_cases h3 : c.1 < 0 ∨ 6 < c.1 ∨ c.2 < 0 ∨ 6 < c.2
      · rw [if_pos h3]
      · rw [if_neg h3]
        cases hres : resolve_player g p with
        | none => rfl
        | some tpl =>
          obtain ⟨current, other, curr⟩ := tpl
          show (make_move_go g p current other curr
            (fin7 c.1.toNat) (fin7 c.2.toNat) d).1 = false
          unfold make_move_go
          by_cases hcell : g.board (fin7 c.1.toNat) (fin7 c.2.toNat) ≠ current.color
          · rw [if_pos hcell]
          · rw [if_neg hcell]
            by_cases hmob : can_move g.board current.color g.no_go_move = false
            · rw [if_pos hmob]
            · rw [if_neg hmob, if_neg hL, if_neg hR, if_neg hF, if_neg hB]

theorem make_move_main_blank_origin (g : KubaGame) (p : String) (r c : Fin 7) (d : String)
    (hblank : g.board r c = 'X')
    (hc1 : g.players.1.color ≠ 'X') (hc2 : g.players.2.color ≠ 'X') :
    (make_move_main g p ((r.val : Int), (c.val : Int)) d).fst = false := by
  unfold make_move_main
  by_cases h1 : g.turn ≠ some p
  · rw [if_pos h1]
  · rw [if_neg h1]
    by_cases h2 : g.winner ≠ none
    · rw [if_pos h2]
    · rw [if_neg h2]
      by_cases h3 : ((r.val : Int), (c.val : Int)).1 < 0 ∨ 6 < ((r.val : Int), (c.val : Int)).1 ∨
          ((r.val : Int), (c.val : Int)).2 < 0 ∨ 6 < ((r.val : Int), (c.val : Int)).2
      · rw [if_pos h3]
      · rw [if_neg h3]
        cases hres : resolve_player g p with
        | none => rfl
        | some tpl =>
          obtain ⟨current, other, curr⟩ := tpl
          have hcol : current.color ≠ 'X' := by
            unfold resolve_player at hres
            split at hres
            · simp only [Option.some.injEq, Prod.mk.injEq] at hres
              rw [← hres.1]
              exact hc1
            · split at hres
              · simp only [Option.some.injEq, Prod.mk.injEq] at hres
                rw [← hres.1]
                exact hc2
              · exact Option.noConfusion hres
          show (make_move_go g p current other curr
            (fin7 ((r.val : Int)).toNat) (fin7 ((c.val : Int)).toNat) d).1 = false
          rw [fin7_int_coe r, fin7_int_coe c]
          unfold make_move_go
          rw [if_pos (by rw [hblank]; exact Ne.symm hcol)]

/-- A request whose origin and direction exactly match the no-go token is
always rejected. -/
theorem make_move_main_token_reject (g : KubaGame) (p : String) (r' c' : Fin 7) (d' : String)
    (htok : g.no_go_move = some (r'.val, c'.val, d')) :
    (make_move_main g p ((r'.val : Int), (c'.val : Int)) d').fst = false := by
  unfold make_move_main
  by_cases h1 : g.turn ≠ some p
  · rw [if_pos h1]
  · rw [if_neg h1]
    by_cases h2 : g.winner ≠ none
    · rw [if_pos h2]
    · rw [if_neg h2]
      by_cases h3 : ((r'.val : Int), (c'.val : Int)).1 < 0 ∨
          6 < ((r'.val : Int), (c'.val : Int)).1 ∨
          ((r'.val : Int), (c'.val : Int)).2 < 0 ∨ 6 < ((r'.val : Int), (c'.val : Int)).2
      · rw [if_pos h3]
      · rw [if_neg h3]
        cases hres : resolve_player g p with
        | none => rfl
        | some tpl =>
          obtain ⟨current, other, curr⟩ := tpl
          show (make_move_go g p current other curr
            (fin7 ((r'.val : Int)).toNat) (fin7 ((c'.val : Int)).toNat) d').1 = false
          rw [fin7_int_coe r', fin7_int_coe c']
          unfold make_move_go
          by_cases hcell : g.board r' c' ≠ current.color
          · rw [if_pos hcell]
          · rw [if_neg hcell]
            by_cases hmob : can_move g.board current.color g.no_go_move = false
            · rw [if_pos hmob]
            · rw [if_neg hmob]
              by_cases hdL : d' = "L"
              · subst hdL
                rw [if_pos rfl, htok, move_left_token_reject]
                rfl
              · rw [if_neg hdL]
                by_cases hdR : d' = "R"
                · subst hdR
                  rw [if_pos rfl, htok, move_right_token_reject]
                  rfl
                · rw [if_neg hdR]
                  by_cases hdF : d' = "F"
                  · subst hdF
                    rw [if_pos rfl, htok, move_forward_token_reject]
                    rfl
                  · rw [if_neg hdF]
                    by_cases hdB : d' = "B"
                    · subst hdB
                      rw [if_pos rfl, htok, move_backward_token_reject]
                      rfl
                    · rw [if_neg hdB]


/-- When the acting player has no legal push, the move fails and the
opponent is crowned, with no other state change. -/
theorem make_move_main_no_mobility (g : KubaGame) (p : String) (r c : Fin 7) (d : String)
    (current other : KubaPlayer) (curr : Nat)
    (hturn : g.turn = some p) (hwin : g.winner = none)
    (hres : resolve_player g p = some (current, other, curr))
    (hcell : g.board r c = current.color)
    (hmob : can_move g.board current.color g.no_go_move = false) :
    make_move_main g p ((r.val : Int), (c.val : Int)) d =
      (false, { g with winner := some other.name }) := by
  unfold make_move_main
  rw [if_neg (by simp [hturn]), if_neg (by simp [hwin]),
    if_neg (by push_neg; refine ⟨?_, ?_, ?_, ?_⟩ <;> simp <;> omega)]
  rw [hres]
  show make_move_go g p current other curr
    (fin7 ((r.val : Int)).toNat) (fin7 ((c.val : Int)).toNat) d =
    (false, { g with winner := some other.name })
  rw [fin7_int_coe r, fin7_int_coe c]
  unfold make_move_go
  rw [if_neg (not_not_intro hcell), if_pos hmob]

/-- A first call by a name that is not a registered player is rejected, but
only after the turn has already been fixed to that name. -/
theorem make_move_unknown_first (g0 : KubaGame) (p : String) (c : Int × Int) (d : String)
    (hturn : g0.turn = none) (h1 : g0.players.1.name ≠ p) (h2 : g0.players.2.name ≠ p) :
    make_move g0 p c d = (false, { g0 with turn := some p }) := by
  unfold make_move
  rw [fix_turn_of_none p hturn]
  unfold make_move_main
  rw [if_neg (not_not_intro rfl)]
  by_cases hw : ({ g0 with turn := some p } : KubaGame).winner ≠ none
  · rw [if_pos hw]
  · rw [if_neg hw]
    by_cases hc : c.1 < 0 ∨ 6 < c.1 ∨ c.2 < 0 ∨ 6 < c.2
    · rw [if_pos hc]
    · rw [if_neg hc]
      have hres : resolve_player { g0 with turn := some p } p = none := by
        unfold resolve_player
        rw [if_neg h1, if_neg h2]
      rw [hres]


/-- Erasing a no-go token that does not match the requested origin and
direction leaves the accept/reject outcome of the request unchanged. -/
theorem make_move_main_erase_token (g : KubaGame) (p : String) (r' c' : Fin 7) (d' : String)
    (hng : g.no_go_move ≠ some (r'.val, c'.val, d')) :
    (make_move_main g p ((r'.val : Int), (c'.val : Int)) d').fst =
    (make_move_main { g with no_go_move := none } p ((r'.val : Int), (c'.val : Int)) d').fst := by
  unfold make_move_main
  have e1 : ({ g with no_go_move := none } : KubaGame).turn = g.turn := rfl
  have e2 : ({ g with no_go_move := none } : KubaGame).winner = g.winner := rfl
  have e3 : resolve_player { g with no_go_move := none } p = resolve_player g p := rfl
  rw [e1, e2, e3]
  by_cases h1 : g.turn ≠ some p
  · rw [if_pos h1, if_pos h1]
  · rw [if_neg h1, if_neg h1]
    by_cases h2 : g.winner ≠ none
    · rw [if_pos h2, if_pos h2]
    · rw [if_neg h2, if_neg h2]
      by_cases h3 : ((r'.val : Int), (c'.val : Int)).1 < 0 ∨
          6 < ((r'.val : Int), (c'.val : Int)).1 ∨
          ((r'.val : Int), (c'.val : Int)).2 < 0 ∨ 6 < ((r'.val : Int), (c'.val : Int)).2
      · rw [if_pos h3, if_pos h3]
      · rw [if_neg h3, if_neg h3]
        cases hres : resolve_player g p with
        | none => rfl
        | some tpl =>
          obtain ⟨current, other, curr⟩ := tpl
          show (make_move_go g p current other curr
              (fin7 ((r'.val : Int)).toNat) (fin7 ((c'.val : Int)).toNat) d').1 =
            (make_move_go { g with no_go_move := none } p current other curr
              (fin7 ((r'.val : Int)).toNat) (fin7 ((c'.val : Int)).toNat) d').1
          rw [fin7_int_coe r', fin7_int_coe c']
          unfold make_move_go
          have f1 : ({ g with no_go_move := none } : KubaGame).board = g.board := rfl
          have f2 : ({ g with no_go_move := none } : KubaGame).no_go_move = none := rfl
          rw [f1, f2]
          by_cases hcell : g.board r' c' ≠ current.color
          · rw [if_pos hcell, if_pos hcell]
          · rw [if_neg hcell, if_neg hcell]
            by_cases hmob : can_move g.board current.color g.no_go_move = false
            · rw [if_pos hmob]
              by_cases hmob2 : can_move g.board current.color none = false
              · rw [if_pos hmob2]
              · rw [if_neg hmob2]
                by_cases hdL : d' = "L"
                · subst hdL
                  rw [if_pos rfl]
                  cases hmv : move_left g.board none r' c' current.color with
                  | none => rfl
                  | some out =>
                    exfalso
                    have hsame : move_left g.board g.no_go_move r' c' current.color = some out := by
                      rw [move_left_ng_irrel g.board g.no_go_move r' c' current.color hng]
                      exact hmv
                    have hcm := can_move_of_cell g.board current.color g.no_go_move r' c'
                      (not_not.mp hcell) (by simp [hsame])
                    rw [hmob] at hcm
                    exact Bool.noConfusion hcm
                · rw [if_neg hdL]
                  by_cases hdR : d' = "R"
                  · subst hdR
                    rw [if_pos rfl]
                    cases hmv : move_right g.board none r' c' current.color with
                    | none => rfl
                    | some out =>
                      exfalso
                      have hsame : move_right g.board g.no_go_move r' c' current.color
                          = some out := by
                        rw [move_right_ng_irrel g.board g.no_go_move r' c' current.color hng]
                        exact hmv
                      have hcm := can_move_of_cell g.board current.color g.no_go_move r' c'
                        (not_not.mp hcell) (by simp [hsame])
                      rw [hmob] at hcm
                      exact Bool.noConfusion hcm
                  · rw [if_neg hdR]
                    by_cases hdF : d' = "F"
                    · subst hdF
                      rw [if_pos rfl]
                      cases hmv : move_forward g.board none r' c' current.color with
                      | none => rfl
                      | some out =>
                        exfalso
                        have hsame : move_forward g.board g.no_go_move r' c' current.color
                            = some out := by
                          rw [move_forward_ng_irrel g.board g.no_go_move r' c' current.color hng]
                          exact hmv
                        have hcm := can_move_of_cell g.board current.color g.no_go_move r' c'
                          (not_not.mp hcell) (by simp [hsame])
                        rw [hmob] at hcm
                        exact Bool.noConfusion hcm
                    · rw [if_neg hdF]
                      by_cases hdB : d' = "B"
                      · subst hdB
                        rw [if_pos rfl]
                        cases hmv : move_backward g.board none r' c' current.color with
                        | none => rfl
                        | some out =>
                          exfalso
                          have hsame : move_backward g.board g.no_go_move r' c' current.color
                              = some out := by
                            rw [move_backward_ng_irrel g.board g.no_go_move r' c'
                              current.color hng]
                            exact hmv
                          have hcm := can_move_of_cell g.board current.color g.no_go_move r' c'
                            (not_not.mp hcell) (by simp [hsame])
                          rw [hmob] at hcm
                          exact Bool.noConfusion hcm
                      · rw [if_neg hdB]
            · rw [if_neg hmob]
              have hmob2 : ¬ can_move g.board current.color none = false := by
                intro hfalse
                have htrue := can_move_erase g.board current.color g.no_go_move (by
                  cases hcm : can_move g.board current.color g.no_go_move with
                  | false => exact absurd hcm hmob
                  | true => rfl)
                rw [htrue] at hfalse
                exact Bool.noConfusion hfalse
              rw [if_neg hmob2]
              by_cases hdL : d' = "L"
              · subst hdL
                rw [if_pos rfl, if_pos rfl,
                  move_left_ng_irrel g.board g.no_go_move r' c' current.color hng]
                cases hmv : move_left g.board none r' c' current.color <;> rfl
              · rw [if_neg hdL, if_neg hdL]
                by_cases hdR : d' = "R"
                · subst hdR
                  rw [if_pos rfl, if_pos rfl,
                    move_right_ng_irrel g.board g.no_go_move r' c' current.color hng]
                  cases hmv : move_right g.board none r' c' current.color <;> rfl
                · rw [if_neg hdR, if_neg hdR]
                  by_cases hdF : d' = "F"
                  · subst hdF
                    rw [if_pos rfl, if_pos rfl,
                      move_forward_ng_irrel g.board g.no_go_move r' c' current.color hng]
                    cases hmv : move_forward g.board none r' c' current.color <;> rfl
                  · rw [if_neg hdF, if_neg hdF]
                    by_cases hdB : d' = "B"
                    · subst hdB
                      rw [if_pos rfl, if_pos rfl,
                        move_backward_ng_irrel g.board g.no_go_move r' c' current.color hng]
                      cases hmv : move_backward g.board none r' c' current.color <;> rfl
                    · rw [if_neg hdB, if_neg hdB]

/-- Capture bookkeeping never changes the capturing player's name. -/
theorem update_marbles_name (ch : Char) (p : KubaPlayer) (r w bl : Int) :
    (update_marbles ch p r w bl).1.name = p.name := by
  unfold update_marbles
  split_ifs <;> rfl

/-- Capture bookkeeping never changes the capturing player's color. -/
theorem update_marbles_color (ch : Char) (p : KubaPlayer) (r w bl : Int) :
    (update_marbles ch p r w bl).1.color = p.color := by
  unfold update_marbles
  split_ifs <;> rfl

/-- "The push would force the mover's own marble off the edge": no blank
cell between the origin and the relevant edge, and the edge cell holds the
mover's color. -/
def self_elimination (b : Board) (r c : Fin 7) (d : String) (pcolor : Char) : Prop :=
  if d = "L" then (∀ j : Fin 7, j.val ≤ c.val → b r j ≠ 'X') ∧ b r 0 = pcolor
  else if d = "R" then (∀ j : Fin 7, c.val ≤ j.val → b r j ≠ 'X') ∧ b r 6 = pcolor
  else if d = "F" then (∀ i : Fin 7, i.val ≤ r.val → b i c ≠ 'X') ∧ b 0 c = pcolor
  else if d = "B" then (∀ i : Fin 7, r.val ≤ i.val → b i c ≠ 'X') ∧ b 6 c = pcolor
  else False

theorem move_left_self_elim (b : Board) (ng : Option NoGo) (row column : Fin 7) (pcolor : Char)
    (hall : ∀ j : Fin 7, j.val ≤ column.val → b row j ≠ 'X') (hedge : b row 0 = pcolor) :
    move_left b ng row column pcolor = none := by
  simp only [move_left]
  by_cases h1 : column.val ≠ 6 ∧ b row (column + 1) ≠ 'X'
  · rw [if_pos h1]
  · rw [if_neg h1]
    have hm0 : scan_down (fun j => b row j) column.val = 0 :=
      (scan_down_eq_zero_iff _ _ (by omega)).mpr (fun j _ h2 => hall j h2)
    rw [if_pos ⟨hm0, hedge⟩]

theorem move_right_self_elim (b : Board) (ng : Option NoGo) (row column : Fin 7) (pcolor : Char)
    (hall : ∀ j : Fin 7, column.val ≤ j.val → b row j ≠ 'X') (hedge : b row 6 = pcolor) :
    move_right b ng row column pcolor = none := by
  simp only [move_right]
  by_cases h1 : column.val ≠ 0 ∧ b row (column - 1) ≠ 'X'
  · rw [if_pos h1]
  · rw [if_neg h1]
    have hm6 : scan_up (fun j => b row j) column.val = 6 :=
      (scan_up_eq_six_iff _ _ (by omega)).mpr (fun j h2 _ => hall j h2)
    rw [if_pos ⟨hm6, hedge⟩]

theorem move_forward_self_elim (b : Board) (ng : Option NoGo) (row column : Fin 7)
    (pcolor : Char)
    (hall : ∀ i : Fin 7, i.val ≤ row.val → b i column ≠ 'X') (hedge : b 0 column = pcolor) :
    move_forward b ng row column pcolor = none := by
  simp only [move_forward]
  by_cases h1 : row.val ≠ 6 ∧ b (row + 1) column ≠ 'X'
  · rw [if_pos h1]
  · rw [if_neg h1]
    have hm0 : scan_down (fun i => b i column) row.val = 0 :=
      (scan_down_eq_zero_iff _ _ (by omega)).mpr (fun i _ h2 => hall i h2)
    rw [if_pos ⟨hm0, hedge⟩]

theorem move_backward_self_elim (b : Board) (ng : Option NoGo) (row column : Fin 7)
    (pcolor : Char)
    (hall : ∀ i : Fin 7, row.val ≤ i.val → b i column ≠ 'X') (hedge : b 6 column = pcolor) :
    move_backward b ng row column pcolor = none := by
  simp only [move_backward]
  by_cases h1 : row.val ≠ 0 ∧ b (row - 1) column ≠ 'X'
  · rw [if_pos h1]
  · rw [if_neg h1]
    have hm6 : scan_up (fun i => b i column) row.val = 6 :=
      (scan_up_eq_six_iff _ _ (by omega)).mpr (fun i h2 _ => hall i h2)
    rw [if_pos ⟨hm6, hedge⟩]

theorem capture_update_name (cap : Option Char) (pl : KubaPlayer) (r w bl : Int) :
    (capture_update cap pl r w bl).1.name = pl.name := by
  cases cap with
  | none => rfl
  | some ch => exact update_marbles_name ch pl r w bl

theorem capture_update_color (cap : Option Char) (pl : KubaPlayer) (r w bl : Int) :
    (capture_update cap pl r w bl).1.color = pl.color := by
  cases cap with
  | none => rfl
  | some ch => exact update_marbles_color ch pl r w bl

theorem commit_state_board (g : KubaGame) (p : String) (current : KubaPlayer) (curr : Nat)
    (out : PushOut) : (commit_state g p current curr out).board = out.1 := rfl

theorem commit_state_no_go (g : KubaGame) (p : String) (current : KubaPlayer) (curr : Nat)
    (out : PushOut) : (commit_state g p current curr out).no_go_move = out.2.2 := rfl

theorem commit_state_winner (g : KubaGame) (p : String) (current : KubaPlayer) (curr : Nat)
    (out : PushOut) :
    (commit_state g p current curr out).winner =
      (if 8 ≤ (capture_update out.2.1 current g.red g.white g.black).1.opponent_marbles ∨
          7 ≤ (capture_update out.2.1 current g.red g.white g.black).1.red
       then some p else g.winner) := rfl

theorem commit_state_players (g : KubaGame) (p : String) (current : KubaPlayer) (curr : Nat)
    (out : PushOut) :
    (commit_state g p current curr out).players =
      (if curr = 0 then ((capture_update out.2.1 current g.red g.white g.black).1, g.players.2)
       else (g.players.1, (capture_update out.2.1 current g.red g.white g.black).1)) := rfl

/-! ### Claim theorems -/

/-- C2: the claim asserts the fresh board holds exactly 8 white marbles and
that the on-board counts agree with `get_marble_count`.  In fact the board
literal contains 9 white marbles (an extra `'W'` at `(2,6)`), while the
tallies report `(8, 8, 13)`: the code contradicts its own docstring and
tallies. -/
theorem C2_initial_board_count :
    countColor initBoard 'W' = 9 ∧ countColor initBoard 'B' = 8 ∧
    countColor initBoard 'R' = 13 ∧ get_marble_count G0 = (8, 8, 13) := by
  decide

/-- C5: on the freshly constructed game (the empty move sequence) the board
holds 30 marbles while both players have 0 captures, so the board total is
`30 - captures`, not `29 - captures` as claimed — a consequence of the
extra white marble in the board literal. -/
theorem C5_initial_total :
    totalMarbles G0.board = 30 ∧
    G0.players.1.red + G0.players.1.opponent_marbles +
      G0.players.2.red + G0.players.2.opponent_marbles = 0 := by
  decide

/-- C1 counterexample: white's opening push right at `(0,0)` succeeds with
no capture — the scan finds the empty cell `(0,2)` strictly before the far
edge — yet the forbidden-move token is cleared to `none`, not set as the
claim requires. -/
theorem C1_counterexample :
    (make_move G0 "PlayerA" (0, 0) "R").fst = true ∧
    G0.board 0 2 = 'X' ∧
    (make_move G0 "PlayerA" (0, 0) "R").snd.players = G0.players ∧
    (make_move G0 "PlayerA" (0, 0) "R").snd.no_go_move = none := by
  decide

/-- C3 counterexample: the very first `make_move` call, made with the
unregistered name "Mallory", is rejected but nevertheless fixes the
active-player name to "Mallory". -/
theorem C3_counterexample :
    G0.turn = none ∧
    make_move G0 "Mallory" (0, 0) "L" = (false, { G0 with turn := some "Mallory" }) := by
  exact ⟨rfl, by decide⟩

/-- C3 (amended): on the very first call of a match, the active-player name
is fixed to the requester unconditionally — even when the requester is not a
registered player; such a call is still rejected, but the turn stays fixed
to the unknown name. -/
theorem C3_amended (g0 : KubaGame) (p : String) (c : Int × Int) (d : String)
    (hturn : g0.turn = none) (h1 : g0.players.1.name ≠ p) (h2 : g0.players.2.name ≠ p) :
    make_move g0 p c d = (false, { g0 with turn := some p }) :=
  make_move_unknown_first g0 p c d hturn h1 h2

/-- C3 witness: instantiating `C3_amended` on the fresh game and the
unknown name "Mallory". -/
theorem C3_amended_witness :
    G0.turn = none ∧ G0.players.1.name ≠ "Mallory" ∧ G0.players.2.name ≠ "Mallory" ∧
    make_move G0 "Mallory" (2, 5) "F" = (false, { G0 with turn := some "Mallory" }) :=
  ⟨rfl, by decide, by decide,
    C3_amended G0 "Mallory" (2, 5) "F" rfl (by decide) (by decide)⟩

/-- C4 counterexample: the rejected request `("PlayerA", (3,3), "L")` on the
fresh game (the cell holds a neutral marble) returns `False` yet changes the
active-player name from `none` to "PlayerA", so a rejected move does not
leave the full state unchanged. -/
theorem C4_counterexample :
    (make_move G0 "PlayerA" (3, 3) "L").fst = false ∧
    (make_move G0 "PlayerA" (3, 3) "L").snd.turn = some "PlayerA" ∧
    G0.turn = none := by
  decide

/-- C4 (amended): a `make_move` call returning `False` leaves the board,
the tallies, the players (hence the capture counts) and the forbidden-move
token unchanged; the active-player name changes only on the very first call
of the match (it is fixed to the requester), and the winner changes only
when the mobility check finds the resolved requester without a legal push —
in that case it is set to the opponent's name. -/
theorem C4_amended (g0 : KubaGame) (p : String) (c : Int × Int) (d : String) (gf : KubaGame)
    (h : make_move g0 p c d = (false, gf)) :
    gf.board = g0.board ∧ gf.red = g0.red ∧ gf.white = g0.white ∧ gf.black = g0.black ∧
    gf.players = g0.players ∧ gf.no_go_move = g0.no_go_move ∧
    (gf.turn = g0.turn ∨ (g0.turn = none ∧ gf.turn = some p)) ∧
    (gf.winner = g0.winner ∨
      ∃ current other curr, resolve_player g0 p = some (current, other, curr) ∧
        can_move g0.board current.color g0.no_go_move = false ∧
        gf.winner = some other.name) := by
  unfold make_move at h
  obtain ⟨hb, hr, hw, hbl, hp, hn, ht, hwin⟩ := make_move_main_false_inv _ _ _ _ _ h
  rw [fix_turn_board] at hb
  rw [fix_turn_red] at hr
  rw [fix_turn_white] at hw
  rw [fix_turn_black] at hbl
  rw [fix_turn_players] at hp
  rw [fix_turn_no_go] at hn
  rw [fix_turn_winner, resolve_player_fix_turn, fix_turn_board, fix_turn_no_go] at hwin
  refine ⟨hb, hr, hw, hbl, hp, hn, ?_, hwin⟩
  by_cases h0 : g0.turn = none
  · right
    refine ⟨h0, ?_⟩
    rw [ht, fix_turn_of_none p h0]
  · left
    rw [ht, fix_turn_of_some p h0]

/-- C4 witness: instantiating `C4_amended` on the rejected first move of the
fresh game. -/
theorem C4_amended_witness :
    make_move G0 "PlayerA" (3, 3) "L" = (false, { G0 with turn := some "PlayerA" }) ∧
    ({ G0 with turn := some "PlayerA" } : KubaGame).board = G0.board ∧
    (({ G0 with turn := some "PlayerA" } : KubaGame).turn = G0.turn ∨
      (G0.turn = none ∧
        ({ G0 with turn := some "PlayerA" } : KubaGame).turn = some "PlayerA")) :=
  ⟨by decide,
    (C4_amended G0 "PlayerA" (3, 3) "L" { G0 with turn := some "PlayerA" } (by decide)).1,
    (C4_amended G0 "PlayerA" (3, 3) "L"
      { G0 with turn := some "PlayerA" } (by decide)).2.2.2.2.2.2.1⟩

/-- C10: `make_move` is a total function into `Bool × KubaGame` (so every
call terminates with a boolean; every board access in the embedding is
through `Fin 7` indices), and both malformed inputs are ordinary
rejections: out-of-range integer coordinates and unrecognized direction
strings each make the call return `False`. -/
theorem C10_total_safe (g : KubaGame) (p : String) (rc : Int × Int) (d : String) :
    ((rc.1 < 0 ∨ 6 < rc.1 ∨ rc.2 < 0 ∨ 6 < rc.2) → (make_move g p rc d).fst = false) ∧
    ((d ≠ "L" ∧ d ≠ "R" ∧ d ≠ "F" ∧ d ≠ "B") → (make_move g p rc d).fst = false) := by
  constructor
  · intro hbad
    unfold make_move
    exact make_move_main_bad_coords _ p rc d hbad
  · intro hd
    unfold make_move
    exact make_move_main_bad_dir _ p rc d hd.1 hd.2.1 hd.2.2.1 hd.2.2.2

/-- C10 witness: an out-of-range request and an unknown direction are both
rejected on the fresh game. -/
theorem C10_total_safe_witness :
    (make_move G0 "PlayerA" (9, 0) "L").fst = false ∧
    (make_move G0 "PlayerA" (0, 0) "Q").fst = false :=
  ⟨(C10_total_safe G0 "PlayerA" (9, 0) "L").1 (by decide),
   (C10_total_safe G0 "PlayerA" (0, 0) "Q").2 (by decide)⟩

/-- C1 (amended): after any successful push, the forbidden-move token is set
exactly when the scan's first empty cell is exactly the far-edge cell (so
the pushed line reaches the edge and no marble falls off); in that case the
token records the far-edge cell — the newly filled head of the line — with
the opposite direction.  In every other case (first empty cell strictly
before the far edge, or a marble pushed off) the token is cleared to
`none`; in particular a capture always clears it. -/
theorem C1_amended (b : Board) (ng : Option NoGo) (row column : Fin 7) (pcolor : Char) :
    (∀ out : PushOut, move_left b ng row column pcolor = some out →
      out.2.2 = (if (∀ j : Fin 7, 1 ≤ j.val → j.val ≤ column.val → b row j ≠ 'X') ∧
                    b row 0 = 'X'
                 then some (row.val, 0, "R") else none) ∧
      (out.2.1 ≠ none → out.2.2 = none)) ∧
    (∀ out : PushOut, move_right b ng row column pcolor = some out →
      out.2.2 = (if (∀ j : Fin 7, column.val ≤ j.val → j.val ≤ 5 → b row j ≠ 'X') ∧
                    b row 6 = 'X'
                 then some (row.val, 6, "L") else none) ∧
      (out.2.1 ≠ none → out.2.2 = none)) ∧
    (∀ out : PushOut, move_forward b ng row column pcolor = some out →
      out.2.2 = (if (∀ i : Fin 7, 1 ≤ i.val → i.val ≤ row.val → b i column ≠ 'X') ∧
                    b 0 column = 'X'
                 then some (0, column.val, "B") else none) ∧
      (out.2.1 ≠ none → out.2.2 = none)) ∧
    (∀ out : PushOut, move_backward b ng row column pcolor = some out →
      out.2.2 = (if (∀ i : Fin 7, row.val ≤ i.val → i.val ≤ 5 → b i column ≠ 'X') ∧
                    b 6 column = 'X'
                 then some (6, column.val, "F") else none) ∧
      (out.2.1 ≠ none → out.2.2 = none)) :=
  ⟨fun out h => move_left_token_spec b ng row column pcolor out h,
   fun out h => move_right_token_spec b ng row column pcolor out h,
   fun out h => move_forward_token_spec b ng row column pcolor out h,
   fun out h => move_backward_token_spec b ng row column pcolor out h⟩

/-- C1 witness: on the board `B6`, white's left push at `(3,2)` reaches the
far edge with the edge cell blank: the push succeeds without capture and the
token `(3, 0, "R")` is recorded, as `C1_amended` prescribes. -/
theorem C1_amended_witness :
    move_left B6 none 3 2 'W' = some (B6', none, some (3, 0, "R")) ∧
    ((B6', none, some (3, 0, "R")) : PushOut).2.2 =
      (if (∀ j : Fin 7, 1 ≤ j.val → j.val ≤ (2 : Fin 7).val → B6 3 j ≠ 'X') ∧ B6 3 0 = 'X'
       then some ((3 : Fin 7).val, 0, "R") else none) :=
  ⟨by decide,
    ((C1_amended B6 none 3 2 'W').1 ((B6', none, some (3, 0, "R")) : PushOut) (by decide)).1⟩

/-- C7 counterexample: on `G7` white has no legal push anywhere, yet white's
request at `(3,3)` — an empty cell — is rejected at the own-marble check
before the mobility check runs, so the game does not end and no winner is
recorded. -/
theorem C7_counterexample :
    can_move G7.board 'W' G7.no_go_move = false ∧
    G7.players.1.color = 'W' ∧ G7.turn = some "A" ∧ G7.winner = none ∧
    (make_move G7 "A" (3, 3) "L").fst = false ∧
    (make_move G7 "A" (3, 3) "L").snd.winner = none := by
  decide

/-- C7 (amended): a request by the player to move that passes the
preliminary validation (game not over, requester's turn, in-range
coordinates, origin holding the requester's own marble) while the requester
has no legal push anywhere ends the game with the opponent recorded as
winner and returns failure; requests failing the earlier validation are
rejected without setting the winner. -/
theorem C7_amended (g : KubaGame) (p : String) (r c : Fin 7) (d : String)
    (current other : KubaPlayer) (curr : Nat)
    (hturn : g.turn = some p) (hwin : g.winner = none)
    (hres : resolve_player g p = some (current, other, curr))
    (hcell : g.board r c = current.color)
    (hmob : can_move g.board current.color g.no_go_move = false) :
    make_move g p ((r.val : Int), (c.val : Int)) d =
      (false, { g with winner := some other.name }) := by
  unfold make_move
  rw [fix_turn_of_some p (by simp [hturn])]
  exact make_move_main_no_mobility g p r c d current other curr hturn hwin hres hcell hmob

/-- C7 witness: instantiating `C7_amended` on `G7` at the white corner
marble `(0,0)`. -/
theorem C7_amended_witness :
    resolve_player G7 "A" = some (G7.players.1, G7.players.2, 0) ∧
    make_move G7 "A" (((0 : Fin 7).val : Int), ((0 : Fin 7).val : Int)) "L" =
      (false, { G7 with winner := some "B" }) := by
  refine ⟨by decide, ?_⟩
  exact C7_amended G7 "A" 0 0 "L" G7.players.1 G7.players.2 0 rfl rfl (by decide)
    (by decide) (by decide)

/-- C8: a push that would force a marble of the mover's own color off the
board edge (no blank between the origin and the edge, and the mover's color
at the edge cell) is rejected — `make_move` returns `False` — and the
authoritative board is unchanged. -/
theorem C8_no_self_elimination (g : KubaGame) (p : String) (r c : Fin 7) (d : String)
    (current other : KubaPlayer) (curr : Nat)
    (hres : resolve_player g p = some (current, other, curr))
    (hse : self_elimination g.board r c d current.color) :
    (make_move g p ((r.val : Int), (c.val : Int)) d).fst = false ∧
    (make_move g p ((r.val : Int), (c.val : Int)) d).snd.board = g.board := by
  have hfst : (make_move g p ((r.val : Int), (c.val : Int)) d).fst = false := by
    cases hb : (make_move g p ((r.val : Int), (c.val : Int)) d).fst with
    | false => rfl
    | true =>
      exfalso
      have hpair : make_move g p ((r.val : Int), (c.val : Int)) d =
          ((make_move g p ((r.val : Int), (c.val : Int)) d).fst,
           (make_move g p ((r.val : Int), (c.val : Int)) d).snd) := rfl
      rw [hb] at hpair
      unfold make_move at hpair
      obtain ⟨_, _, current', other', curr', out, hres', hcell', hmob', hdisp, _⟩ :=
        make_move_main_true_elim _ _ _ _ _ hpair
      rw [resolve_player_fix_turn, hres] at hres'
      simp only [Option.some.injEq, Prod.mk.injEq] at hres'
      obtain ⟨hcur, _, _⟩ := hres'
      rw [fix_turn_board, fix_turn_no_go,
        show fin7 ((((r.val : Int), (c.val : Int)).1).toNat) = r from fin7_int_coe r,
        show fin7 ((((r.val : Int), (c.val : Int)).2).toNat) = c from fin7_int_coe c,
        ← hcur] at hdisp
      unfold self_elimination at hse
      rcases hdisp with ⟨hd, hmv⟩ | ⟨hd, hmv⟩ | ⟨hd, hmv⟩ | ⟨hd, hmv⟩
      · subst hd
        rw [if_pos rfl] at hse
        rw [move_left_self_elim g.board g.no_go_move r c current.color hse.1 hse.2] at hmv
        exact Option.noConfusion hmv
      · subst hd
        rw [if_neg (by decide), if_pos rfl] at hse
        rw [move_right_self_elim g.board g.no_go_move r c current.color hse.1 hse.2] at hmv
        exact Option.noConfusion hmv
      · subst hd
        rw [if_neg (by decide), if_neg (by decide), if_pos rfl] at hse
        rw [move_forward_self_elim g.board g.no_go_move r c current.color hse.1 hse.2] at hmv
        exact Option.noConfusion hmv
      · subst hd
        rw [if_neg (by decide), if_neg (by decide), if_neg (by decide), if_pos rfl] at hse
        rw [move_backward_self_elim g.board g.no_go_move r c current.color hse.1 hse.2] at hmv
        exact Option.noConfusion hmv
  refine ⟨hfst, ?_⟩
  have hpair : make_move g p ((r.val : Int), (c.val : Int)) d =
      ((make_move g p ((r.val : Int), (c.val : Int)) d).fst,
       (make_move g p ((r.val : Int), (c.val : Int)) d).snd) := rfl
  rw [hfst] at hpair
  unfold make_move at hpair
  have hb := (make_move_main_false_inv _ _ _ _ _ hpair).1
  rw [fix_turn_board] at hb
  unfold make_move
  exact hb

/-- C8 witness: on the fresh board, white's push right at `(2,6)` would push
white's own marble off the right edge; the request is rejected and the board
is unchanged. -/
theorem C8_no_self_elimination_witness :
    resolve_player G0 "PlayerA" = some (G0.players.1, G0.players.2, 0) ∧
    (make_move G0 "PlayerA" (((2 : Fin 7).val : Int), ((6 : Fin 7).val : Int)) "R").fst
      = false ∧
    (make_move G0 "PlayerA" (((2 : Fin 7).val : Int), ((6 : Fin 7).val : Int)) "R").snd.board
      = G0.board := by
  refine ⟨by decide, ?_, ?_⟩
  · exact (C8_no_self_elimination G0 "PlayerA" 2 6 "R" G0.players.1 G0.players.2 0
      (by decide)
      (by show (∀ j : Fin 7, (6 : Fin 7).val ≤ j.val → G0.board 2 j ≠ 'X') ∧
            G0.board 2 6 = G0.players.1.color
          decide)).1
  · exact (C8_no_self_elimination G0 "PlayerA" 2 6 "R" G0.players.1 G0.players.2 0
      (by decide)
      (by show (∀ j : Fin 7, (6 : Fin 7).val ≤ j.val → G0.board 2 j ≠ 'X') ∧
            G0.board 2 6 = G0.players.1.color
          decide)).2

/-- C9: if, immediately after a successful push is committed, the mover's
captured-neutral count is at least 7 or the mover's captured-opponent count
is at least 8, then the winner is the mover — while the move itself returned
`True`. -/
theorem C9_win_threshold (g : KubaGame) (p : String) (c : Int × Int) (d : String)
    (g₁ : KubaGame) (cur oth : KubaPlayer) (i : Nat)
    (hmv : make_move g p c d = (true, g₁))
    (hres : resolve_player g₁ p = some (cur, oth, i))
    (hwin : 8 ≤ cur.opponent_marbles ∨ 7 ≤ cur.red) :
    g₁.winner = some p := by
  unfold make_move at hmv
  obtain ⟨_, _, current, other, curr, out, hresA, _, _, _, hg1⟩ :=
    make_move_main_true_elim _ _ _ _ _ hmv
  subst hg1
  unfold resolve_player at hresA
  split at hresA
  next hname1 =>
    simp only [Option.some.injEq, Prod.mk.injEq] at hresA
    obtain ⟨hcur, hoth, hcurr⟩ := hresA
    subst hcurr
    have hplayers : (commit_state (fix_turn g p) p current 0 out).players
        = ((capture_update out.2.1 current (fix_turn g p).red (fix_turn g p).white
            (fix_turn g p).black).1, (fix_turn g p).players.2) := by
      rw [commit_state_players]
      simp
    have hname : (capture_update out.2.1 current (fix_turn g p).red (fix_turn g p).white
        (fix_turn g p).black).1.name = p := by
      rw [capture_update_name, ← hcur]
      exact hname1
    have hres2 : resolve_player (commit_state (fix_turn g p) p current 0 out) p
        = some ((capture_update out.2.1 current (fix_turn g p).red (fix_turn g p).white
            (fix_turn g p).black).1, (fix_turn g p).players.2, 0) := by
      unfold resolve_player
      rw [hplayers]
      rw [if_pos hname]
    rw [hres2] at hres
    simp only [Option.some.injEq, Prod.mk.injEq] at hres
    obtain ⟨hcu, _, _⟩ := hres
    rw [commit_state_winner, hcu, if_pos hwin]
  next hname1 =>
    split at hresA
    next hname2 =>
      simp only [Option.some.injEq, Prod.mk.injEq] at hresA
      obtain ⟨hcur, hoth, hcurr⟩ := hresA
      subst hcurr
      have hplayers : (commit_state (fix_turn g p) p current 1 out).players
          = ((fix_turn g p).players.1,
             (capture_update out.2.1 current (fix_turn g p).red (fix_turn g p).white
              (fix_turn g p).black).1) := by
        rw [commit_state_players]
        simp
      have hname : (capture_update out.2.1 current (fix_turn g p).red (fix_turn g p).white
          (fix_turn g p).black).1.name = p := by
        rw [capture_update_name, ← hcur]
        exact hname2
      have hres2 : resolve_player (commit_state (fix_turn g p) p current 1 out) p
          = some ((capture_update out.2.1 current (fix_turn g p).red (fix_turn g p).white
              (fix_turn g p).black).1, (fix_turn g p).players.1, 1) := by
        unfold resolve_player
        rw [hplayers]
        rw [if_neg hname1]
        rw [if_pos hname]
      rw [hres2] at hres
      simp only [Option.some.injEq, Prod.mk.injEq] at hres
      obtain ⟨hcu, _, _⟩ := hres
      rw [commit_state_winner, hcu, if_pos hwin]
    next =>
      exact Option.noConfusion hresA

/-- C9 witness: on `G9` white ("A", six reds already captured) pushes the
neutral marble off the right edge: the move returns `True` and the seventh
captured neutral marble makes "A" the winner at once. -/
theorem C9_win_threshold_witness :
    make_move G9 "A" (0, 5) "R" = (true, G9') ∧
    resolve_player G9' "A" = some (⟨"A", 'W', 7, 0⟩, ⟨"B", 'B', 0, 0⟩, 0) ∧
    G9'.winner = some "A" := by
  refine ⟨by decide, by decide, ?_⟩
  exact C9_win_threshold G9 "A" (0, 5) "R" G9' ⟨"A", 'W', 7, 0⟩ ⟨"B", 'B', 0, 0⟩ 0
    (by decide) (by decide) (by decide)

theorem fix_turn_erase (g : KubaGame) (p : String) :
    fix_turn { g with no_go_move := none } p = { fix_turn g p with no_go_move := none } := by
  unfold fix_turn
  by_cases h : g.turn = none
  · rw [if_pos (show ({ g with no_go_move := none } : KubaGame).turn = none from h), if_pos h]
  · rw [if_neg (show ¬ ({ g with no_go_move := none } : KubaGame).turn = none from h),
      if_neg h]

/-- C6 counterexample: white's capture-free push at `(3,2)` left succeeds
and vacates `(3,2)`; black's following push at `(3,0)` right — a cell other
than the vacated spot — is rejected under the recorded token but would be
accepted with no forbidden move in effect, so "every other push by Y is
unaffected" fails on the code. -/
theorem C6_counterexample :
    make_move G6 "A" (3, 2) "L" = (true, G6') ∧
    G6'.red = G6.red ∧ G6'.white = G6.white ∧ G6'.black = G6.black ∧
    G6'.board 3 2 = 'X' ∧
    (make_move G6' "B" (3, 0) "R").fst = false ∧
    (make_move { G6' with no_go_move := none } "B" (3, 0) "R").fst = true := by
  decide

/-- C6 (amended): after a capture-free successful push by X, (i) any push
submitted at the vacated origin is rejected, the cell being empty; (ii) a
push by Y whose origin and direction differ from the recorded forbidden
token is accepted or rejected exactly as with no forbidden move in effect;
(iii) a push matching the recorded token — the newly filled head of the
pushed line with the opposite direction, not the vacated cell — is
rejected. -/
theorem C6_amended (g : KubaGame) (pX : String) (r c : Fin 7) (d : String) (g₁ : KubaGame)
    (hmv : make_move g pX ((r.val : Int), (c.val : Int)) d = (true, g₁))
    (_hnocap : g₁.red = g.red ∧ g₁.white = g.white ∧ g₁.black = g.black)
    (hc1 : g.players.1.color ≠ 'X') (hc2 : g.players.2.color ≠ 'X') :
    (∀ pY d' : String,
      (make_move g₁ pY ((r.val : Int), (c.val : Int)) d').fst = false) ∧
    (∀ (pY : String) (r' c' : Fin 7) (d' : String),
      g₁.no_go_move ≠ some (r'.val, c'.val, d') →
      (make_move g₁ pY ((r'.val : Int), (c'.val : Int)) d').fst =
        (make_move { g₁ with no_go_move := none } pY ((r'.val : Int), (c'.val : Int)) d').fst) ∧
    (∀ (pY : String) (r' c' : Fin 7) (d' : String),
      g₁.no_go_move = some (r'.val, c'.val, d') →
      (make_move g₁ pY ((r'.val : Int), (c'.val : Int)) d').fst = false) := by
  unfold make_move at hmv
  obtain ⟨_, _, current, other, curr, out, hresA, _, _, hdisp, hg1⟩ :=
    make_move_main_true_elim _ _ _ _ _ hmv
  have hX : g₁.board r c = 'X' := by
    rw [hg1, commit_state_board]
    rw [show fin7 ((((r.val : Int), (c.val : Int)).1).toNat) = r from fin7_int_coe r,
        show fin7 ((((r.val : Int), (c.val : Int)).2).toNat) = c from fin7_int_coe c] at hdisp
    rcases hdisp with ⟨_, hm⟩ | ⟨_, hm⟩ | ⟨_, hm⟩ | ⟨_, hm⟩
    · exact move_left_origin _ _ _ _ _ _ hm
    · exact move_right_origin _ _ _ _ _ _ hm
    · exact move_forward_origin _ _ _ _ _ _ hm
    · exact move_backward_origin _ _ _ _ _ _ hm
  have hcols : g₁.players.1.color = g.players.1.color ∧
      g₁.players.2.color = g.players.2.color := by
    rw [hg1, commit_state_players]
    rw [resolve_player_fix_turn] at hresA
    unfold resolve_player at hresA
    split at hresA
    next hn1 =>
      simp only [Option.some.injEq, Prod.mk.injEq] at hresA
      obtain ⟨hcur, hoth, hcurr⟩ := hresA
      subst hcurr
      rw [if_pos rfl]
      constructor
      · show (capture_update out.2.1 current (fix_turn g pX).red (fix_turn g pX).white
            (fix_turn g pX).black).1.color = g.players.1.color
        rw [capture_update_color, ← hcur]
      · show (fix_turn g pX).players.2.color = g.players.2.color
        rw [fix_turn_players]
    next hn1 =>
      split at hresA
      next hn2 =>
        simp only [Option.some.injEq, Prod.mk.injEq] at hresA
        obtain ⟨hcur, hoth, hcurr⟩ := hresA
        subst hcurr
        rw [if_neg (by decide : ¬(1 : Nat) = 0)]
        constructor
        · show (fix_turn g pX).players.1.color = g.players.1.color
          rw [fix_turn_players]
        · show (capture_update out.2.1 current (fix_turn g pX).red (fix_turn g pX).white
              (fix_turn g pX).black).1.color = g.players.2.color
          rw [capture_update_color, ← hcur]
      next =>
        exact Option.noConfusion hresA
  refine ⟨?_, ?_, ?_⟩
  · intro pY d'
    unfold make_move
    exact make_move_main_blank_origin (fix_turn g₁ pY) pY r c d'
      (by rw [fix_turn_board]; exact hX)
      (by rw [fix_turn_players, hcols.1]; exact hc1)
      (by rw [fix_turn_players, hcols.2]; exact hc2)
  · intro pY r' c' d' hng
    unfold make_move
    rw [fix_turn_erase g₁ pY]
    exact make_move_main_erase_token (fix_turn g₁ pY) pY r' c' d'
      (by rw [fix_turn_no_go]; exact hng)
  · intro pY r' c' d' htok
    unfold make_move
    exact make_move_main_token_reject (fix_turn g₁ pY) pY r' c' d'
      (by rw [fix_turn_no_go]; exact htok)

/-- C6 witness: instantiating `C6_amended` on the `G6` scenario — black's
push at the vacated cell `(3,2)` is rejected, and black's push matching the
recorded token `(3,0,"R")` is rejected. -/
theorem C6_amended_witness :
    (make_move G6' "B" (((3 : Fin 7).val : Int), ((2 : Fin 7).val : Int)) "F").fst = false ∧
    (make_move G6' "B" (((3 : Fin 7).val : Int), ((0 : Fin 7).val : Int)) "R").fst = false := by
  obtain ⟨ha, hb, hc⟩ := C6_amended G6 "A" 3 2 "L" G6' (by decide)
    (by refine ⟨?_, ?_, ?_⟩ <;> decide) (by decide) (by decide)
  exact ⟨ha "B" "F", hc "B" 3 0 "R" (by decide)⟩

end Kuba
